import Mathlib

/-!
# Matrix multiplication: serial and fork/shared-memory parallel (`c_code/matrix_mul.c`)

A shallow embedding of `matrix_multiply_parallel`, `matrix_multiply_serial` and `main`.

* `int` values that never leave the range of `int` (row/column counts, loop variables,
  worker numbers, `begin`, `current_rows`) are `Nat`.  The flat index `r * b_cols + c` can
  leave it, so it is computed in 32-bit two's complement (`flat_index`).
* `float` is an arbitrary type `α` with an uninterpreted zero, addition and multiplication
  (`Arith α`).  No algebraic law is assumed, so every statement holds for IEEE arithmetic
  with whatever rounding the machine performs.
* A `float *` buffer is a `Mem α`: its cell count, its contents, and a log of the
  indices stored to.  A process that accesses an index outside its buffer is killed there
  (`Proc`); what it stored before stays stored.
* `float **` matrices are read-only functions `Nat → Nat → α` (`mat[r][i]`).
* The System V calls, `malloc`, `fork` are explicit state passing over a `Kernel`
  with the operating system's answers supplied by an `Env`.
* Concurrent children are run one after another, in an order given by a schedule.
-/

set_option autoImplicit false
set_option linter.unusedVariables false

namespace MatrixMul

/-! ## Scalars and buffers -/

/-- The arithmetic of the element type (`float` in the source). -/
structure Arith (α : Type) where
  zero : α
  add : α → α → α
  mul : α → α → α

/-- A flat buffer of `size` cells; `written` logs every index stored to, newest first. -/
structure Mem (α : Type) where
  size : Nat
  cells : Nat → α
  written : List Nat

/-- The assignment `buf[i] = v`. -/
def Mem.store {α : Type} (m : Mem α) (i : Nat) (v : α) : Mem α :=
  { size := m.size
    cells := fun j => if j = i then v else m.cells j
    written := i :: m.written }

/-- The read `buf[i]`. -/
def Mem.load {α : Type} (m : Mem α) (i : Nat) : α := m.cells i

/-- The buffer as the list of its `size` cells. -/
def Mem.toList {α : Type} (m : Mem α) : List α := (List.range m.size).map m.cells

/-- A freshly obtained buffer of `n` cells with contents `init` and nothing written. -/
def Mem.fresh {α : Type} (n : Nat) (init : Nat → α) : Mem α :=
  { size := n, cells := init, written := [] }

/-- The value of an `int` computation whose exact result is `x`: 32-bit two's complement. -/
def int_wrap (x : Int) : Int := (x + 2147483648) % 4294967296 - 2147483648

/-- The `int` expression `r * b_cols + c` of lines 129, 132, 177 and 180. -/
def flat_index (r b_cols c : Nat) : Int :=
  int_wrap (int_wrap ((r : Int) * (b_cols : Int)) + (c : Int))

/-- A process working on a buffer.  An access outside the buffer is undefined behaviour in
the source; here it kills the process: `killed` is set, nothing is stored, and the process
does nothing more. -/
structure Proc (α : Type) where
  mem : Mem α
  killed : Bool

/-- A live process on the buffer `m`. -/
def Proc.start {α : Type} (m : Mem α) : Proc α := { mem := m, killed := false }

/-- The statement `buf[i] = v;` with an `int` index. -/
def Proc.assign {α : Type} (p : Proc α) (i : Int) (v : α) : Proc α :=
  if p.killed = true then p
  else if 0 ≤ i ∧ i < (p.mem.size : Int) then
    { mem := p.mem.store i.toNat v, killed := false }
  else
    { mem := p.mem, killed := true }

/-- The statement `buf[i] += x;` with an `int` index. -/
def Proc.add_assign {α : Type} (S : Arith α) (p : Proc α) (i : Int) (x : α) : Proc α :=
  if p.killed = true then p
  else if 0 ≤ i ∧ i < (p.mem.size : Int) then
    { mem := p.mem.store i.toNat (S.add (p.mem.load i.toNat) x), killed := false }
  else
    { mem := p.mem, killed := true }

/-! ## The partition computed in `matrix_multiply_parallel` (lines 91-92, 111-112) -/

/-- Line 111: `int begin = w * rows_per_worker + (w < leftover ? w : leftover);` -/
def worker_begin (rows_per_worker leftover w : Nat) : Nat :=
  w * rows_per_worker + (if w < leftover then w else leftover)

/-- Line 112: `int current_rows = rows_per_worker + (w < leftover ? 1 : 0);` -/
def worker_current_rows (rows_per_worker leftover w : Nat) : Nat :=
  rows_per_worker + (if w < leftover then 1 else 0)

/-- Line 91: `int rows_per_worker = a_rows / num_workers;` -/
def rows_per_worker (a_rows num_workers : Nat) : Nat := a_rows / num_workers

/-- Line 92: `int leftover = a_rows % num_workers;` -/
def leftover (a_rows num_workers : Nat) : Nat := a_rows % num_workers

/-- The `begin` of worker `w` for a request of `a_rows` rows and `num_workers` workers. -/
def begin_of (a_rows num_workers w : Nat) : Nat :=
  worker_begin (rows_per_worker a_rows num_workers) (leftover a_rows num_workers) w

/-- The `current_rows` of worker `w` for `a_rows` rows and `num_workers` workers. -/
def count_of (a_rows num_workers w : Nat) : Nat :=
  worker_current_rows (rows_per_worker a_rows num_workers) (leftover a_rows num_workers) w

/-! ## The loops -/

section Loops
variable {α : Type}

/-- Child, lines 130-133: `for (i = 0; i < a_cols; i++) shared_result[r*b_cols+c] += ...`. -/
def child_inner (S : Arith α) (mat_a mat_b : Nat → Nat → α) (a_cols b_cols r c : Nat)
    (shared_result : Proc α) : Proc α :=
  (List.range a_cols).foldl
    (fun p i => p.add_assign S (flat_index r b_cols c) (S.mul (mat_a r i) (mat_b i c)))
    shared_result

/-- Child, lines 127-134: the loop over the columns `c` of one row `r`. -/
def child_cols (S : Arith α) (mat_a mat_b : Nat → Nat → α) (a_cols b_cols r : Nat)
    (shared_result : Proc α) : Proc α :=
  (List.range b_cols).foldl
    (fun p c =>
      child_inner S mat_a mat_b a_cols b_cols r c (p.assign (flat_index r b_cols c) S.zero))
    shared_result

/-- Child, lines 125-135: `for (r = begin; r < begin + current_rows; r++)`. -/
def child_body (S : Arith α) (mat_a mat_b : Nat → Nat → α) (a_cols b_cols : Nat)
    (begin current_rows : Nat) (shared_result : Proc α) : Proc α :=
  (List.range' begin current_rows).foldl
    (fun p r => child_cols S mat_a mat_b a_cols b_cols r p)
    shared_result

/-- Serial, lines 178-181: the accumulation loop of one cell. -/
def serial_inner (S : Arith α) (mat_a mat_b : Nat → Nat → α) (a_cols b_cols r c : Nat)
    (result_array : Proc α) : Proc α :=
  (List.range a_cols).foldl
    (fun p i => p.add_assign S (flat_index r b_cols c) (S.mul (mat_a r i) (mat_b i c)))
    result_array

/-- Serial, lines 175-182: the loop over the columns of one row. -/
def serial_cols (S : Arith α) (mat_a mat_b : Nat → Nat → α) (a_cols b_cols r : Nat)
    (result_array : Proc α) : Proc α :=
  (List.range b_cols).foldl
    (fun p c =>
      serial_inner S mat_a mat_b a_cols b_cols r c (p.assign (flat_index r b_cols c) S.zero))
    result_array

/-- Serial, lines 173-183: `for (r = 0; r < a_rows; r++)`. -/
def serial_rows (S : Arith α) (mat_a mat_b : Nat → Nat → α) (a_rows a_cols b_cols : Nat)
    (result_array : Proc α) : Proc α :=
  (List.range a_rows).foldl
    (fun p r => serial_cols S mat_a mat_b a_cols b_cols r p)
    result_array

/-- The dot product of row `r` of `mat_a` and column `c` of `mat_b`, accumulated from zero in
ascending `i` (the specification's per-cell sum). -/
def dot (S : Arith α) (mat_a mat_b : Nat → Nat → α) (a_cols r c : Nat) : α :=
  (List.range a_cols).foldl (fun acc i => S.add acc (S.mul (mat_a r i) (mat_b i c))) S.zero

end Loops

/-! ## The operating system -/

/-- The observable actions of the program on its environment. -/
inductive Event where
  | stderr (msg : String)
  | malloc (bytes : Nat)
  | free
  | shmget (bytes : Nat)
  | shmat (id : Int)
  | shmdt
  | shmctl_rmid (id : Int)
  | fork (w : Nat)
  | wait
  | save_matrix (file : String)
  | release_matrix (rows : Nat)
  deriving DecidableEq

/-- The shared-memory state of the system: the ids of the segments that exist, the next id
to hand out, and the actions performed so far (oldest first). -/
structure Kernel where
  segs : List Int
  next_id : Nat
  trace : List Event
  deriving DecidableEq

/-- A system with no shared segment and no history. -/
def Kernel.boot : Kernel := { segs := [], next_id := 0, trace := [] }

/-- Record an action. -/
def Kernel.emit (k : Kernel) (e : Event) : Kernel := { k with trace := k.trace ++ [e] }

/-- How a call ends: it returns a value, the process calls `exit(code)`, or the process is
killed by a signal. -/
inductive Outcome (β : Type) where
  | ret (v : β)
  | exit (code : Nat)
  | crash
  deriving DecidableEq

/-- The answers of the operating system. -/
structure Env (α : Type) where
  malloc_ok : Bool
  malloc_init : Nat → α
  shmget_ok : Kernel → Nat → Bool
  shmat_ok : Bool
  shm_init : Nat → α
  fork_ok : Nat → Bool
  fopen_ok : Bool

/-- The call `shmget(IPC_PRIVATE, bytes, ...)`: with `IPC_PRIVATE` the system never looks up an
existing segment; it creates a new one with a fresh id, or fails with `-1`. -/
def shmget (ok : Bool) (bytes : Nat) (k : Kernel) : Int × Kernel :=
  let k1 := k.emit (Event.shmget bytes)
  if ok then
    ((k1.next_id : Int),
      { k1 with segs := (k1.next_id : Int) :: k1.segs, next_id := k1.next_id + 1 })
  else
    (-1, k1)

/-- The call `shmctl(id, IPC_RMID, NULL)`: removes the segment `id` if it exists; the
program ignores the return value. -/
def shmctl_rmid (id : Int) (k : Kernel) : Kernel :=
  let k1 := k.emit (Event.shmctl_rmid id)
  { k1 with segs := k1.segs.erase id }

/-! ## `matrix_multiply_parallel` (lines 82-147) -/

section Functions
variable {α : Type}

/-- The parent's side of the loop of lines 109-140, with `n` iterations left from worker `w`:
the `(begin, current_rows)` handed to each forked child, or `none` when a `fork` fails and
the parent detaches, removes the segment and calls `exit(1)`. -/
def fork_loop (fork_ok : Nat → Bool) (shared_id : Int) (rows_per_worker leftover : Nat) :
    Nat → Nat → Kernel → Option (List (Nat × Nat)) × Kernel
  | 0, _, k => (some [], k)
  | n + 1, w, k =>
    let begin := worker_begin rows_per_worker leftover w
    let current_rows := worker_current_rows rows_per_worker leftover w
    let k1 := k.emit (Event.fork w)
    if fork_ok w then
      match fork_loop fork_ok shared_id rows_per_worker leftover n (w + 1) k1 with
      | (some tasks, k2) => (some ((begin, current_rows) :: tasks), k2)
      | (none, k2) => (none, k2)
    else
      (none, shmctl_rmid shared_id ((k1.emit (Event.stderr "fork error")).emit Event.shmdt))

/-- The children run one after another in the order `sched` (a list of worker numbers), each
on the `(begin, current_rows)` it was forked with, each until its loop ends or it is killed;
the parent only waits for them, so a killed child leaves its stores in the segment. -/
def run_children (S : Arith α) (mat_a mat_b : Nat → Nat → α) (a_cols b_cols : Nat)
    (tasks : List (Nat × Nat)) (sched : List Nat) (shared_result : Mem α) : Mem α :=
  sched.foldl
    (fun m w =>
      match tasks[w]? with
      | some (begin, current_rows) =>
        (child_body S mat_a mat_b a_cols b_cols begin current_rows (Proc.start m)).mem
      | none => m)
    shared_result

/-- Lines 142-143: `for (i = 0; i < num_workers; i++) wait(NULL);` -/
def wait_loop (num_workers : Nat) (k : Kernel) : Kernel :=
  (List.range num_workers).foldl (fun k _ => k.emit Event.wait) k

/-- The function `matrix_multiply_parallel`.  The result `none` is `NULL`. -/
def matrix_multiply_parallel (env : Env α) (S : Arith α) (sched : List Nat)
    (mat_a mat_b : Nat → Nat → α) (num_workers a_rows a_cols b_rows b_cols : Nat)
    (k : Kernel) : Outcome (Option (Mem α)) × Kernel :=
  if a_cols ≠ b_rows then
    (Outcome.ret none, k.emit (Event.stderr "Matrix size incompatible for multiplication\n"))
  else if num_workers = 0 then
    (Outcome.crash, k)
  else
    let rows_per_worker := a_rows / num_workers
    let leftover := a_rows % num_workers
    let bytes := 4 * a_rows * b_cols
    let (shared_id, k1) := shmget (env.shmget_ok k bytes) bytes k
    if shared_id < 0 then
      (Outcome.ret none, k1.emit (Event.stderr "shmget error"))
    else
      let k2 := k1.emit (Event.shmat shared_id)
      if env.shmat_ok = false then
        (Outcome.ret none, shmctl_rmid shared_id (k2.emit (Event.stderr "shmat error")))
      else
        let shared_result := Mem.fresh (a_rows * b_cols) env.shm_init
        match fork_loop env.fork_ok shared_id rows_per_worker leftover num_workers 0 k2 with
        | (none, k3) => (Outcome.exit 1, k3)
        | (some tasks, k3) =>
          (Outcome.ret (some (run_children S mat_a mat_b a_cols b_cols tasks sched shared_result)),
            wait_loop num_workers k3)

/-! ## `matrix_multiply_serial` (lines 157-185) -/

/-- The function `matrix_multiply_serial`.  The result `none` is `NULL`; the process is killed
when its loop accesses an index outside `result_array`. -/
def matrix_multiply_serial (env : Env α) (S : Arith α)
    (mat_a mat_b : Nat → Nat → α) (a_rows a_cols b_rows b_cols : Nat)
    (k : Kernel) : Outcome (Option (Mem α)) × Kernel :=
  if a_cols ≠ b_rows then
    (Outcome.ret none, k.emit (Event.stderr "Matrix size mismatch\n"))
  else
    let k1 := k.emit (Event.malloc (4 * a_rows * b_cols))
    if env.malloc_ok = false then
      (Outcome.ret none, k1.emit (Event.stderr "malloc failed"))
    else
      let done := serial_rows S mat_a mat_b a_rows a_cols b_cols
        (Proc.start (Mem.fresh (a_rows * b_cols) env.malloc_init))
      if done.killed = true then (Outcome.crash, k1)
      else (Outcome.ret (some done.mem), k1)

/-! ## `save_matrix`, `release_matrix`, `main` (lines 150-155, 187-297) -/

/-- The function `save_matrix`: with a `NULL` matrix and at least one cell to print, the first
read `matrix[0]` kills the process. -/
def save_matrix (fopen_ok : Bool) (filename : String) (matrix : Option (Mem α))
    (rows cols : Nat) (k : Kernel) : Outcome Unit × Kernel :=
  if fopen_ok = false then
    (Outcome.ret (), k.emit (Event.stderr "Couldn't open file to write"))
  else
    match matrix with
    | some _ => (Outcome.ret (), k.emit (Event.save_matrix filename))
    | none =>
      if rows = 0 ∨ cols = 0 then (Outcome.ret (), k.emit (Event.save_matrix filename))
      else (Outcome.crash, k)

/-- The function `release_matrix`. -/
def release_matrix (row_total : Nat) (k : Kernel) : Kernel :=
  k.emit (Event.release_matrix row_total)

/-- The function `main`.  The two `read_matrix` calls and `scanf` are inputs: `load1`, `load2`
are the matrices read from `A.txt` and `B.txt` with their row and column counts (`none` for
`NULL`), `scanf` is the integer typed in (`none` when the conversion fails).  Timing and
`printf` are left out. -/
def main (env : Env α) (S : Arith α) (sched : List Nat)
    (load1 load2 : Option ((Nat → Nat → α) × Nat × Nat)) (scanf : Option Int)
    (k : Kernel) : Outcome Nat × Kernel :=
  match load1 with
  | none => (Outcome.ret 1, k.emit (Event.stderr "Could not load first matrix.\n"))
  | some (mat1, m1_rows, m1_cols) =>
  match load2 with
  | none =>
    (Outcome.ret 1,
      release_matrix m1_rows (k.emit (Event.stderr "Could not load second matrix.\n")))
  | some (mat2, m2_rows, m2_cols) =>
  if m1_cols ≠ m2_rows then
    (Outcome.ret 1,
      release_matrix m2_rows (release_matrix m1_rows (k.emit (Event.stderr "Mismatch: %d cols vs %d rows.\n"))))
  else
    match matrix_multiply_serial env S mat1 mat2 m1_rows m1_cols m2_rows m2_cols k with
    | (Outcome.exit code, k1) => (Outcome.exit code, k1)
    | (Outcome.crash, k1) => (Outcome.crash, k1)
    | (Outcome.ret none, k1) =>
      (Outcome.ret 1,
        release_matrix m2_rows (release_matrix m1_rows
          (k1.emit (Event.stderr "Serial multiplication failed.\n"))))
    | (Outcome.ret (some _), k1) =>
      let k2 := k1.emit Event.free
      match scanf with
      | none => (Outcome.ret 1, release_matrix m2_rows (release_matrix m1_rows k2))
      | some worker_count =>
        if worker_count > 0 then
          match matrix_multiply_parallel env S sched mat1 mat2 worker_count.toNat
              m1_rows m1_cols m2_rows m2_cols k2 with
          | (Outcome.exit code, k3) => (Outcome.exit code, k3)
          | (Outcome.crash, k3) => (Outcome.crash, k3)
          | (Outcome.ret parallel_output, k3) =>
            match save_matrix env.fopen_ok "C.txt" parallel_output m1_rows m2_cols k3 with
            | (Outcome.exit code, k4) => (Outcome.exit code, k4)
            | (Outcome.crash, k4) => (Outcome.crash, k4)
            | (Outcome.ret (), k4) =>
              match parallel_output with
              | some _ =>
                let k5 := k4.emit Event.shmdt
                let (sid, k6) := shmget (env.shmget_ok k5 0) 0 k5
                let k7 := shmctl_rmid sid k6
                (Outcome.ret 0, release_matrix m2_rows (release_matrix m1_rows k7))
              | none =>
                (Outcome.ret 1,
                  release_matrix m2_rows (release_matrix m1_rows
                    (k4.emit (Event.stderr "Parallel multiplication failed\n"))))
        else
          (Outcome.ret 1, release_matrix m2_rows (release_matrix m1_rows k2))

end Functions

/-! ## Concrete data -/

/-- The matrix `[[1,2],[3,4]]`. -/
def exA : Nat → Nat → Int
  | 0, 0 => 1 | 0, 1 => 2
  | 1, 0 => 3 | 1, 1 => 4
  | _, _ => 0

/-- The matrix `[[5,6],[7,8]]`. -/
def exB : Nat → Nat → Int
  | 0, 0 => 5 | 0, 1 => 6
  | 1, 0 => 7 | 1, 1 => 8
  | _, _ => 0

/-- Exact integer arithmetic. -/
def intArith : Arith Int := { zero := 0, add := fun x y => x + y, mul := fun x y => x * y }

/-- A system in which every request succeeds, except that a shared segment of size zero is
refused (as Linux does), and fresh memory holds `junk`. -/
def okEnv (junk : Int) : Env Int :=
  { malloc_ok := true
    malloc_init := fun _ => junk
    shmget_ok := fun _ bytes => decide (0 < bytes)
    shmat_ok := true
    shm_init := fun _ => junk
    fork_ok := fun _ => true
    fopen_ok := true }

/-- As `okEnv`, but shared segments of size zero are granted too. -/
def laxEnv (junk : Int) : Env Int :=
  { okEnv junk with shmget_ok := fun _ _ => true }

/-! ## Predicates used in the statements -/

section Predicates
variable {α : Type}

/-- Row `r` lies in the range of worker `w`. -/
def in_range (a_rows n w r : Nat) : Prop :=
  begin_of a_rows n w ≤ r ∧ r < begin_of a_rows n w + count_of a_rows n w

instance (a_rows n w r : Nat) : Decidable (in_range a_rows n w r) := by
  unfold in_range; infer_instance

/-- The memory `m'` is `m` with exactly the cells in `P` stored to, each now holding `val`. -/
structure Fills (val : Nat → α) (P : Nat → Prop) (m m' : Mem α) : Prop where
  size_eq : m'.size = m.size
  inside : ∀ j, P j → m'.cells j = val j
  outside : ∀ j, ¬ P j → m'.cells j = m.cells j
  log : ∀ j, j ∈ m'.written ↔ P j ∨ j ∈ m.written

/-- The value every cell must finally hold, by flat index. -/
def cell_value (S : Arith α) (mat_a mat_b : Nat → Nat → α) (a_cols b_cols : Nat) (j : Nat) : α :=
  dot S mat_a mat_b a_cols (j / b_cols) (j % b_cols)

/-- The cells of rows `begin ≤ r < begin + current_rows`. -/
def in_rows (b_cols begin current_rows : Nat) (j : Nat) : Prop :=
  ∃ r c, begin ≤ r ∧ r < begin + current_rows ∧ c < b_cols ∧ j = r * b_cols + c

/-- The process `p'` is alive and its buffer is that of `p` with exactly the cells in `P`
stored to, each now holding `val`. -/
structure FillsP (val : Nat → α) (P : Nat → Prop) (p p' : Proc α) : Prop where
  alive : p'.killed = false
  fills : Fills val P p.mem p'.mem

/-- What stores through `int` indices can do to a buffer, whatever its size: the log only
grows, every new entry is an `int`, and no cell beyond the range of `int` changes. -/
structure Extends (m m' : Mem α) : Prop where
  size_eq : m'.size = m.size
  keeps : ∀ j, j ∈ m.written → j ∈ m'.written
  int_only : ∀ j, j ∈ m'.written → j ∈ m.written ∨ j < 2147483648
  beyond : ∀ j, 2147483648 ≤ j → m'.cells j = m.cells j

end Predicates

/-! ## Lemmas -/

section Lemmas
variable {α : Type}


/-! ## Arithmetic of the partition -/

theorem begin_of_zero (a_rows n : Nat) : begin_of a_rows n 0 = 0 := by
  simp [begin_of, worker_begin]

theorem begin_of_succ (a_rows n w : Nat) :
    begin_of a_rows n (w + 1) = begin_of a_rows n w + count_of a_rows n w := by
  simp only [begin_of, count_of, worker_begin, worker_current_rows, Nat.succ_mul]
  split_ifs <;> omega

theorem begin_of_min (a_rows n w : Nat) :
    begin_of a_rows n w = w * (a_rows / n) + min w (a_rows % n) := by
  simp only [begin_of, worker_begin, rows_per_worker, leftover]
  split_ifs <;> omega

theorem begin_of_sum (a_rows n w : Nat) :
    begin_of a_rows n w = ((List.range w).map (count_of a_rows n)).sum := by
  induction w with
  | zero => simp [begin_of_zero]
  | succ w ih => rw [begin_of_succ, List.range_succ, List.map_append, List.sum_append, ih]; simp

theorem begin_of_total (a_rows n : Nat) (hn : 1 ≤ n) : begin_of a_rows n n = a_rows := by
  have hl : a_rows % n < n := Nat.mod_lt _ (by omega)
  have hd := Nat.div_add_mod a_rows n
  rw [begin_of_min, Nat.min_eq_right (Nat.le_of_lt hl)]
  exact hd

theorem begin_of_mono (a_rows n : Nat) {w w' : Nat} (h : w ≤ w') :
    begin_of a_rows n w ≤ begin_of a_rows n w' := by
  induction h with
  | refl => exact Nat.le_refl _
  | step _ ih => rw [begin_of_succ]; omega

theorem in_range_lt_total (a_rows n : Nat) (hn : 1 ≤ n) {w r : Nat} (hw : w < n)
    (h : in_range a_rows n w r) : r < a_rows := by
  have h1 := begin_of_mono a_rows n (show w + 1 ≤ n from hw)
  rw [begin_of_total a_rows n hn, begin_of_succ] at h1
  exact Nat.lt_of_lt_of_le h.2 h1

theorem in_range_unique (a_rows n : Nat) {w w' r : Nat}
    (h : in_range a_rows n w r) (h' : in_range a_rows n w' r) : w = w' := by
  rcases Nat.lt_trichotomy w w' with hlt | heq | hgt
  · have := begin_of_mono a_rows n (show w + 1 ≤ w' from hlt)
    rw [begin_of_succ] at this
    have := h.2; have := h'.1; omega
  · exact heq
  · have := begin_of_mono a_rows n (show w' + 1 ≤ w from hgt)
    rw [begin_of_succ] at this
    have := h'.2; have := h.1; omega

theorem exists_in_range_aux (a_rows n r : Nat) :
    ∀ m, r < begin_of a_rows n m → ∃ w, w < m ∧ in_range a_rows n w r := by
  intro m
  induction m with
  | zero => intro h; rw [begin_of_zero] at h; omega
  | succ m ih =>
    intro h
    by_cases hm : r < begin_of a_rows n m
    · obtain ⟨w, hw, hr⟩ := ih hm
      exact ⟨w, by omega, hr⟩
    · refine ⟨m, by omega, ?_, ?_⟩
      · omega
      · rw [begin_of_succ] at h; exact h

theorem exists_in_range (a_rows n : Nat) (hn : 1 ≤ n) {r : Nat} (hr : r < a_rows) :
    ∃ w, w < n ∧ in_range a_rows n w r :=
  exists_in_range_aux a_rows n r n (by rw [begin_of_total a_rows n hn]; exact hr)

theorem count_of_eq (a_rows n w : Nat) :
    count_of a_rows n w = a_rows / n + (if w < a_rows % n then 1 else 0) := rfl

theorem filter_lt_range (l : Nat) : ∀ n, ((List.range n).filter (fun w => decide (w < l))).length = min n l := by
  intro n
  induction n with
  | zero => simp
  | succ n ih =>
    rw [List.range_succ, List.filter_append, List.length_append, ih]
    by_cases h : n < l
    · simp [h]; omega
    · simp [h]; omega

theorem Fills.nothing (val : Nat → α) (m : Mem α) : Fills val (fun _ => False) m m :=
  ⟨rfl, fun _ h => h.elim, fun _ _ => rfl, fun _ => by simp⟩

theorem Fills.congr {val : Nat → α} {P Q : Nat → Prop} {m m' : Mem α}
    (h : Fills val P m m') (hPQ : ∀ j, P j ↔ Q j) : Fills val Q m m' :=
  ⟨h.size_eq, fun j hj => h.inside j ((hPQ j).2 hj),
    fun j hj => h.outside j (fun hp => hj ((hPQ j).1 hp)),
    fun j => by rw [h.log j, hPQ j]⟩

theorem Fills.seq {val : Nat → α} {P Q : Nat → Prop} {m m' m'' : Mem α}
    (h1 : Fills val P m m') (h2 : Fills val Q m' m'') :
    Fills val (fun j => P j ∨ Q j) m m'' := by
  refine ⟨h2.size_eq.trans h1.size_eq, ?_, ?_, ?_⟩
  · intro j hj
    by_cases hq : Q j
    · exact h2.inside j hq
    · rw [h2.outside j hq]
      exact h1.inside j (hj.resolve_right hq)
  · intro j hj
    rw [h2.outside j (fun hq => hj (Or.inr hq)), h1.outside j (fun hp => hj (Or.inl hp))]
  · intro j
    rw [h2.log j, h1.log j]
    constructor
    · rintro (hq | hp | hw)
      · exact Or.inl (Or.inr hq)
      · exact Or.inl (Or.inl hp)
      · exact Or.inr hw
    · rintro ((hp | hq) | hw)
      · exact Or.inr (Or.inl hp)
      · exact Or.inl hq
      · exact Or.inr (Or.inr hw)

/-- A loop whose every iteration `x` fills the cells `P x` fills their union. -/
theorem Fills.foldl {β : Type} {val : Nat → α} (N : Nat) (P : β → Nat → Prop)
    (f : Mem α → β → Mem α) (L : List β)
    (hstep : ∀ x, x ∈ L → ∀ m, m.size = N → Fills val (P x) m (f m x))
    (m : Mem α) (hm : m.size = N) :
    Fills val (fun j => ∃ x, x ∈ L ∧ P x j) m (L.foldl f m) := by
  induction L generalizing m with
  | nil => exact (Fills.nothing val m).congr (fun j => by simp)
  | cons x L ih =>
    have h1 := hstep x (List.mem_cons_self x L) m hm
    have h2 := ih (fun y hy => hstep y (List.mem_cons_of_mem x hy)) (f m x)
      (h1.size_eq.trans hm)
    rw [List.foldl_cons]
    refine (h1.seq h2).congr (fun j => ?_)
    constructor
    · rintro (hp | ⟨y, hy, hpy⟩)
      · exact ⟨x, List.mem_cons_self x L, hp⟩
      · exact ⟨y, List.mem_cons_of_mem x hy, hpy⟩
    · rintro ⟨y, hy, hpy⟩
      rcases List.mem_cons.1 hy with rfl | hy'
      · exact Or.inl hpy
      · exact Or.inr ⟨y, hy', hpy⟩

/-- The same for a loop of a live process that no iteration kills. -/
theorem FillsP.loop {β : Type} {val : Nat → α} (N : Nat) (P : β → Nat → Prop)
    (f : Proc α → β → Proc α) (L : List β)
    (hstep : ∀ x, x ∈ L → ∀ p, p.killed = false → p.mem.size = N → FillsP val (P x) p (f p x))
    (p : Proc α) (hp : p.killed = false) (hN : p.mem.size = N) :
    FillsP val (fun j => ∃ x, x ∈ L ∧ P x j) p (L.foldl f p) := by
  induction L generalizing p with
  | nil => exact ⟨hp, (Fills.nothing val p.mem).congr (fun j => by simp)⟩
  | cons x L ih =>
    have h1 := hstep x (List.mem_cons_self x L) p hp hN
    have h2 := ih (fun y hy => hstep y (List.mem_cons_of_mem x hy)) (f p x) h1.alive
      (h1.fills.size_eq.trans hN)
    rw [List.foldl_cons]
    refine ⟨h2.alive, (h1.fills.seq h2.fills).congr (fun j => ?_)⟩
    constructor
    · rintro (hq | ⟨y, hy, hpy⟩)
      · exact ⟨x, List.mem_cons_self x L, hq⟩
      · exact ⟨y, List.mem_cons_of_mem x hy, hpy⟩
    · rintro ⟨y, hy, hpy⟩
      rcases List.mem_cons.1 hy with rfl | hy'
      · exact Or.inl hpy
      · exact Or.inr ⟨y, hy', hpy⟩

/-! ## `int` indices and single statements -/

theorem int_wrap_nat {n : Nat} (h : n ≤ 2147483647) : int_wrap (n : Int) = (n : Int) := by
  unfold int_wrap
  omega

theorem int_wrap_le (x : Int) : int_wrap x ≤ 2147483647 := by
  unfold int_wrap
  omega

theorem flat_index_le (r b_cols c : Nat) : flat_index r b_cols c ≤ 2147483647 :=
  int_wrap_le _

/-- While `r * b_cols + c` fits in an `int`, the index is the exact value. -/
theorem flat_index_exact {r b_cols c : Nat} (h : r * b_cols + c ≤ 2147483647) :
    flat_index r b_cols c = ((r * b_cols + c : Nat) : Int) := by
  unfold flat_index
  have h1 : r * b_cols ≤ 2147483647 := by omega
  have e1 : ((r : Int) * (b_cols : Int)) = ((r * b_cols : Nat) : Int) := by push_cast; rfl
  have e2 : ((r * b_cols : Nat) : Int) + (c : Int) = ((r * b_cols + c : Nat) : Int) := by
    push_cast; rfl
  rw [e1, int_wrap_nat h1, e2, int_wrap_nat h]

theorem assign_in (p : Proc α) (n : Nat) (v : α) (hp : p.killed = false)
    (hn : n < p.mem.size) :
    p.assign (n : Int) v = { mem := p.mem.store n v, killed := false } := by
  have h : (0 : Int) ≤ (n : Int) ∧ (n : Int) < (p.mem.size : Int) := ⟨by omega, by omega⟩
  unfold Proc.assign
  rw [if_neg (by simp [hp]), if_pos h, Int.toNat_ofNat]

theorem add_assign_in (S : Arith α) (p : Proc α) (n : Nat) (x : α) (hp : p.killed = false)
    (hn : n < p.mem.size) :
    p.add_assign S (n : Int) x
      = { mem := p.mem.store n (S.add (p.mem.load n) x), killed := false } := by
  have h : (0 : Int) ≤ (n : Int) ∧ (n : Int) < (p.mem.size : Int) := ⟨by omega, by omega⟩
  unfold Proc.add_assign
  rw [if_neg (by simp [hp]), if_pos h, Int.toNat_ofNat]

theorem assign_killed (p : Proc α) (i : Int) (v : α) (hp : p.killed = true) :
    p.assign i v = p := by
  unfold Proc.assign
  rw [if_pos hp]

theorem add_assign_killed (S : Arith α) (p : Proc α) (i : Int) (x : α)
    (hp : p.killed = true) : p.add_assign S i x = p := by
  unfold Proc.add_assign
  rw [if_pos hp]

/-- An assignment outside the buffer kills the process and stores nothing. -/
theorem assign_out (p : Proc α) (i : Int) (v : α) (hp : p.killed = false)
    (hi : ¬ (0 ≤ i ∧ i < (p.mem.size : Int))) :
    p.assign i v = { mem := p.mem, killed := true } := by
  unfold Proc.assign
  rw [if_neg (by simp [hp]), if_neg hi]

/-- A loop none of whose iterations changes the state leaves it as it was. -/
theorem foldl_fixed {σ β : Type} (f : σ → β → σ) (s : σ) (hs : ∀ x, f s x = s) (L : List β) :
    L.foldl f s = s := by
  induction L with
  | nil => rfl
  | cons x L ih => rw [List.foldl_cons, hs x, ih]

/-- A loop all of whose iterations respect a preorder respects it. -/
theorem foldl_rel {σ β : Type} (R : σ → σ → Prop) (hrefl : ∀ s, R s s)
    (htrans : ∀ a b c, R a b → R b c → R a c) (f : σ → β → σ)
    (hstep : ∀ x s, R s (f s x)) (L : List β) (s : σ) : R s (L.foldl f s) := by
  induction L generalizing s with
  | nil => exact hrefl s
  | cons x L ih => exact htrans _ _ _ (hstep x s) (ih (f s x))

/-- An accumulation loop that stays inside the buffer is the loop on the buffer itself. -/
theorem accumulate_in (S : Arith α) (mat_a mat_b : Nat → Nat → α) (n r c : Nat)
    (is : List Nat) (p : Proc α) (hp : p.killed = false) (hn : n < p.mem.size) :
    is.foldl (fun p i => p.add_assign S (n : Int) (S.mul (mat_a r i) (mat_b i c))) p
      = { mem := is.foldl
            (fun m i => m.store n (S.add (m.load n) (S.mul (mat_a r i) (mat_b i c)))) p.mem
          killed := false } := by
  induction is generalizing p with
  | nil =>
    cases p with
    | mk mem killed =>
      simp only at hp
      simp [hp]
  | cons i is ih =>
    rw [List.foldl_cons, List.foldl_cons, add_assign_in S p n _ hp hn]
    exact ih _ rfl hn

/-- The accumulation loop on one cell `idx`, over any list of `i`. -/
theorem accumulate_spec (S : Arith α) (mat_a mat_b : Nat → Nat → α) (idx r c : Nat)
    (is : List Nat) (m : Mem α) :
    (is.foldl (fun m i => m.store idx (S.add (m.load idx) (S.mul (mat_a r i) (mat_b i c))))
        m).size = m.size ∧
    (is.foldl (fun m i => m.store idx (S.add (m.load idx) (S.mul (mat_a r i) (mat_b i c))))
        m).cells idx
      = is.foldl (fun acc i => S.add acc (S.mul (mat_a r i) (mat_b i c))) (m.cells idx) ∧
    (∀ j, j ≠ idx →
      (is.foldl (fun m i => m.store idx (S.add (m.load idx) (S.mul (mat_a r i) (mat_b i c))))
        m).cells j = m.cells j) ∧
    (∀ j, j ∈ (is.foldl
        (fun m i => m.store idx (S.add (m.load idx) (S.mul (mat_a r i) (mat_b i c))))
        m).written → j = idx ∨ j ∈ m.written) ∧
    (∀ j, j ∈ m.written → j ∈ (is.foldl
        (fun m i => m.store idx (S.add (m.load idx) (S.mul (mat_a r i) (mat_b i c))))
        m).written) := by
  induction is generalizing m with
  | nil => exact ⟨rfl, rfl, fun _ _ => rfl, fun j hj => Or.inr hj, fun j hj => hj⟩
  | cons i is ih =>
    simp only [List.foldl_cons]
    obtain ⟨h1, h2, h3, h4, h5⟩ :=
      ih (m.store idx (S.add (m.load idx) (S.mul (mat_a r i) (mat_b i c))))
    refine ⟨h1, ?_, ?_, ?_, ?_⟩
    · rw [h2]; simp [Mem.store, Mem.load]
    · intro j hj; rw [h3 j hj]; simp [Mem.store, hj]
    · intro j hj
      rcases h4 j hj with h | h
      · exact Or.inl h
      · simp only [Mem.store, List.mem_cons] at h
        exact h
    · intro j hj
      exact h5 j (by simp [Mem.store, hj])

theorem cell_value_at (S : Arith α) (mat_a mat_b : Nat → Nat → α) (a_cols b_cols r c : Nat)
    (hc : c < b_cols) :
    cell_value S mat_a mat_b a_cols b_cols (r * b_cols + c) = dot S mat_a mat_b a_cols r c := by
  have hb : 0 < b_cols := by omega
  have h1 : (r * b_cols + c) / b_cols = r := by
    rw [Nat.mul_comm, Nat.mul_add_div hb, Nat.div_eq_of_lt hc, Nat.add_zero]
  have h2 : (r * b_cols + c) % b_cols = c := by
    rw [Nat.mul_comm, Nat.mul_add_mod, Nat.mod_eq_of_lt hc]
  simp only [cell_value, h1, h2]

theorem index_lt_total {a_rows b_cols r c : Nat} (hr : r < a_rows) (hc : c < b_cols) :
    r * b_cols + c < a_rows * b_cols := by
  have : (r + 1) * b_cols ≤ a_rows * b_cols := Nat.mul_le_mul_right _ hr
  rw [Nat.succ_mul] at this
  omega

/-- One cell of the child (lines 129-133), while the index fits in an `int` and lies in the
buffer. -/
theorem child_cell_fills (S : Arith α) (mat_a mat_b : Nat → Nat → α) (a_cols b_cols r c : Nat)
    (hc : c < b_cols) (p : Proc α) (hp : p.killed = false)
    (hint : r * b_cols + c ≤ 2147483647) (hsz : r * b_cols + c < p.mem.size) :
    FillsP (cell_value S mat_a mat_b a_cols b_cols) (fun j => j = r * b_cols + c) p
      (child_inner S mat_a mat_b a_cols b_cols r c (p.assign (flat_index r b_cols c) S.zero)) := by
  unfold child_inner
  rw [flat_index_exact hint, assign_in p _ S.zero hp hsz,
    accumulate_in S mat_a mat_b (r * b_cols + c) r c (List.range a_cols)
      { mem := p.mem.store (r * b_cols + c) S.zero, killed := false } rfl hsz]
  obtain ⟨h1, h2, h3, h4, h5⟩ := accumulate_spec S mat_a mat_b (r * b_cols + c) r c
    (List.range a_cols) (p.mem.store (r * b_cols + c) S.zero)
  refine ⟨rfl, ?_, ?_, ?_, ?_⟩
  · exact h1
  · intro j hj
    subst hj
    rw [cell_value_at S mat_a mat_b a_cols b_cols r c hc]
    show (List.foldl _ (p.mem.store (r * b_cols + c) S.zero) (List.range a_cols)).cells
      (r * b_cols + c) = _
    rw [h2]
    simp [Mem.store, dot]
  · intro j hj
    show (List.foldl _ (p.mem.store (r * b_cols + c) S.zero) (List.range a_cols)).cells j = _
    rw [h3 j hj]
    simp [Mem.store, hj]
  · intro j
    show j ∈ (List.foldl _ (p.mem.store (r * b_cols + c) S.zero) (List.range a_cols)).written
      ↔ _
    constructor
    · intro hj
      rcases h4 j hj with h | h
      · exact Or.inl h
      · simp only [Mem.store, List.mem_cons] at h
        exact h
    · intro hj
      exact h5 j (by simpa [Mem.store] using hj)

/-- One row of the child (lines 127-134), while the whole row fits. -/
theorem child_cols_fills (S : Arith α) (mat_a mat_b : Nat → Nat → α) (a_cols b_cols r : Nat)
    (p : Proc α) (hp : p.killed = false)
    (hint : r * b_cols + b_cols ≤ 2147483648) (hsz : r * b_cols + b_cols ≤ p.mem.size) :
    FillsP (cell_value S mat_a mat_b a_cols b_cols)
      (fun j => ∃ c, c < b_cols ∧ j = r * b_cols + c) p
      (child_cols S mat_a mat_b a_cols b_cols r p) := by
  unfold child_cols
  have h := FillsP.loop p.mem.size (fun c j => j = r * b_cols + c)
    (fun q c =>
      child_inner S mat_a mat_b a_cols b_cols r c (q.assign (flat_index r b_cols c) S.zero))
    (List.range b_cols)
    (fun c hc q hq hN => child_cell_fills S mat_a mat_b a_cols b_cols r c (List.mem_range.1 hc)
      q hq (by have := List.mem_range.1 hc; omega)
      (by have := List.mem_range.1 hc; omega))
    p hp rfl
  exact ⟨h.alive, h.fills.congr (fun j => by simp only [List.mem_range])⟩

/-- The whole child (lines 125-135), while all its rows fit. -/
theorem child_body_fills (S : Arith α) (mat_a mat_b : Nat → Nat → α) (a_cols b_cols : Nat)
    (begin current_rows : Nat) (p : Proc α) (hp : p.killed = false)
    (hint : (begin + current_rows) * b_cols ≤ 2147483648)
    (hsz : (begin + current_rows) * b_cols ≤ p.mem.size) :
    FillsP (cell_value S mat_a mat_b a_cols b_cols) (in_rows b_cols begin current_rows) p
      (child_body S mat_a mat_b a_cols b_cols begin current_rows p) := by
  unfold child_body
  have hrow : ∀ r, r < begin + current_rows →
      r * b_cols + b_cols ≤ (begin + current_rows) * b_cols := by
    intro r hr
    have : (r + 1) * b_cols ≤ (begin + current_rows) * b_cols := Nat.mul_le_mul_right _ hr
    rw [Nat.succ_mul] at this
    exact this
  have h := FillsP.loop p.mem.size (fun r j => ∃ c, c < b_cols ∧ j = r * b_cols + c)
    (fun q r => child_cols S mat_a mat_b a_cols b_cols r q)
    (List.range' begin current_rows)
    (fun r hr q hq hN => child_cols_fills S mat_a mat_b a_cols b_cols r q hq
      (by have := hrow r (List.mem_range'_1.1 hr).2; omega)
      (by have := hrow r (List.mem_range'_1.1 hr).2; omega))
    p hp rfl
  refine ⟨h.alive, h.fills.congr (fun j => ?_)⟩
  simp only [List.mem_range'_1, in_rows]
  constructor
  · rintro ⟨r, ⟨h1, h2⟩, c, hc, hj⟩
    exact ⟨r, c, h1, h2, hc, hj⟩
  · rintro ⟨r, c, h1, h2, hc, hj⟩
    exact ⟨r, ⟨h1, h2⟩, c, hc, hj⟩

theorem serial_cols_eq_child_cols (S : Arith α) (mat_a mat_b : Nat → Nat → α)
    (a_cols b_cols r : Nat) (p : Proc α) :
    serial_cols S mat_a mat_b a_cols b_cols r p = child_cols S mat_a mat_b a_cols b_cols r p :=
  rfl

theorem serial_rows_eq_child_body (S : Arith α) (mat_a mat_b : Nat → Nat → α)
    (a_rows a_cols b_cols : Nat) (p : Proc α) :
    serial_rows S mat_a mat_b a_rows a_cols b_cols p
      = child_body S mat_a mat_b a_cols b_cols 0 a_rows p := by
  unfold serial_rows child_body
  rw [List.range_eq_range']
  rfl

theorem serial_rows_succ (S : Arith α) (mat_a mat_b : Nat → Nat → α)
    (n a_cols b_cols : Nat) (p : Proc α) :
    serial_rows S mat_a mat_b (n + 1) a_cols b_cols p
      = serial_cols S mat_a mat_b a_cols b_cols n
          (serial_rows S mat_a mat_b n a_cols b_cols p) := by
  unfold serial_rows
  rw [List.range_succ, List.foldl_append]
  rfl

/-! ## What holds whatever the sizes -/

theorem Extends.refl (m : Mem α) : Extends m m :=
  ⟨rfl, fun _ h => h, fun _ h => Or.inl h, fun _ _ => rfl⟩

theorem Extends.trans {a b c : Mem α} (h1 : Extends a b) (h2 : Extends b c) : Extends a c := by
  refine ⟨h2.size_eq.trans h1.size_eq, fun j h => h2.keeps j (h1.keeps j h), ?_, ?_⟩
  · intro j hj
    rcases h2.int_only j hj with h | h
    · exact h1.int_only j h
    · exact Or.inr h
  · intro j hj
    rw [h2.beyond j hj, h1.beyond j hj]

theorem store_extends (m : Mem α) (i : Int) (v : α) (hi : i ≤ 2147483647) :
    Extends m (m.store i.toNat v) := by
  have hlt : i.toNat < 2147483648 := by omega
  refine ⟨rfl, ?_, ?_, ?_⟩
  · intro j hj
    exact List.mem_cons_of_mem _ hj
  · intro j hj
    rcases List.mem_cons.1 hj with h | h
    · exact Or.inr (by omega)
    · exact Or.inl h
  · intro j hj
    have hne : j ≠ i.toNat := by omega
    simp [Mem.store, hne]

theorem assign_extends (p : Proc α) (i : Int) (v : α) (hi : i ≤ 2147483647) :
    Extends p.mem (p.assign i v).mem := by
  unfold Proc.assign
  split
  · exact Extends.refl _
  · split
    · exact store_extends p.mem i v hi
    · exact Extends.refl _

theorem add_assign_extends (S : Arith α) (p : Proc α) (i : Int) (x : α)
    (hi : i ≤ 2147483647) : Extends p.mem (p.add_assign S i x).mem := by
  unfold Proc.add_assign
  split
  · exact Extends.refl _
  · split
    · exact store_extends p.mem i _ hi
    · exact Extends.refl _

theorem child_inner_extends (S : Arith α) (mat_a mat_b : Nat → Nat → α)
    (a_cols b_cols r c : Nat) (p : Proc α) :
    Extends p.mem (child_inner S mat_a mat_b a_cols b_cols r c p).mem :=
  foldl_rel (fun a b : Proc α => Extends a.mem b.mem) (fun s => Extends.refl s.mem)
    (fun _ _ _ h1 h2 => h1.trans h2) _
    (fun i s => add_assign_extends S s _ _ (flat_index_le r b_cols c)) (List.range a_cols) p

theorem child_inner_killed (S : Arith α) (mat_a mat_b : Nat → Nat → α)
    (a_cols b_cols r c : Nat) (p : Proc α) (hp : p.killed = true) :
    child_inner S mat_a mat_b a_cols b_cols r c p = p :=
  foldl_fixed _ p (fun _ => add_assign_killed S p _ _ hp) (List.range a_cols)

theorem child_cols_step_killed (S : Arith α) (mat_a mat_b : Nat → Nat → α)
    (a_cols b_cols r c : Nat) (p : Proc α) (hp : p.killed = true) :
    child_inner S mat_a mat_b a_cols b_cols r c (p.assign (flat_index r b_cols c) S.zero) = p := by
  rw [assign_killed p _ _ hp, child_inner_killed S mat_a mat_b a_cols b_cols r c p hp]

/-- A row whose first index falls outside the buffer kills the process at once. -/
theorem child_cols_kills (S : Arith α) (mat_a mat_b : Nat → Nat → α)
    (a_cols b_cols r : Nat) (p : Proc α) (hp : p.killed = false) (hb : 0 < b_cols)
    (hbad : ¬ (0 ≤ flat_index r b_cols 0 ∧ flat_index r b_cols 0 < (p.mem.size : Int))) :
    child_cols S mat_a mat_b a_cols b_cols r p = { mem := p.mem, killed := true } := by
  obtain ⟨k, rfl⟩ : ∃ k, b_cols = k + 1 := ⟨b_cols - 1, by omega⟩
  unfold child_cols
  rw [List.range_succ_eq_map, List.foldl_cons, assign_out p _ _ hp hbad,
    child_inner_killed S mat_a mat_b a_cols (k + 1) r 0 _ rfl]
  exact foldl_fixed _ _
    (fun c => child_cols_step_killed S mat_a mat_b a_cols (k + 1) r c _ rfl) _

/-- The first store of a row is in the log when its index lies in the buffer. -/
theorem child_cols_first_write (S : Arith α) (mat_a mat_b : Nat → Nat → α)
    (a_cols b_cols r n : Nat) (p : Proc α) (hp : p.killed = false) (hb : 0 < b_cols)
    (hidx : flat_index r b_cols 0 = (n : Int)) (hn : n < p.mem.size) :
    n ∈ (child_cols S mat_a mat_b a_cols b_cols r p).mem.written := by
  obtain ⟨k, rfl⟩ : ∃ k, b_cols = k + 1 := ⟨b_cols - 1, by omega⟩
  unfold child_cols
  rw [List.range_succ_eq_map, List.foldl_cons, hidx, assign_in p n S.zero hp hn]
  have h1 : n ∈ (child_inner S mat_a mat_b a_cols (k + 1) r 0
      { mem := p.mem.store n S.zero, killed := false }).mem.written :=
    (child_inner_extends S mat_a mat_b a_cols (k + 1) r 0 _).keeps n
      (List.mem_cons_self n _)
  have h2 := foldl_rel (fun a b : Proc α => Extends a.mem b.mem) (fun s => Extends.refl s.mem)
    (fun _ _ _ h1 h2 => h1.trans h2)
    (fun q c => child_inner S mat_a mat_b a_cols (k + 1) r c
      (q.assign (flat_index r (k + 1) c) S.zero))
    (fun c s => (assign_extends s _ S.zero (flat_index_le r (k + 1) c)).trans
      (child_inner_extends S mat_a mat_b a_cols (k + 1) r c _))
    (List.map Nat.succ (List.range k))
    (child_inner S mat_a mat_b a_cols (k + 1) r 0
      { mem := p.mem.store n S.zero, killed := false })
  exact h2.keeps n h1

/-- The serial loop dies at the first row whose index leaves the buffer. -/
theorem serial_rows_crash (S : Arith α) (mat_a mat_b : Nat → Nat → α)
    (n a_cols b_cols : Nat) (p : Proc α) (hp : p.killed = false) (hb : 0 < b_cols)
    (hint : n * b_cols ≤ 2147483648) (hsz : n * b_cols ≤ p.mem.size)
    (hbad : ¬ (0 ≤ flat_index n b_cols 0 ∧ flat_index n b_cols 0 < (p.mem.size : Int))) :
    (serial_rows S mat_a mat_b (n + 1) a_cols b_cols p).killed = true := by
  have h := child_body_fills S mat_a mat_b a_cols b_cols 0 n p hp
    (by rw [Nat.zero_add]; exact hint) (by rw [Nat.zero_add]; exact hsz)
  rw [serial_rows_succ, serial_cols_eq_child_cols, serial_rows_eq_child_body,
    child_cols_kills S mat_a mat_b a_cols b_cols n _ h.alive hb
      (by rw [h.fills.size_eq]; exact hbad)]

theorem index_row_unique {b_cols r c r' c' : Nat} (hc : c < b_cols) (hc' : c' < b_cols)
    (h : r * b_cols + c = r' * b_cols + c') : r = r' := by
  have hb : 0 < b_cols := by omega
  have h1 : (r * b_cols + c) / b_cols = r := by
    rw [Nat.mul_comm, Nat.mul_add_div hb, Nat.div_eq_of_lt hc, Nat.add_zero]
  have h2 : (r' * b_cols + c') / b_cols = r' := by
    rw [Nat.mul_comm, Nat.mul_add_div hb, Nat.div_eq_of_lt hc', Nat.add_zero]
  rw [← h1, ← h2, h]

/-- The ranges of two different workers share no cell. -/
theorem in_rows_disjoint (a_rows n b_cols : Nat) {w w' j : Nat} (hne : w ≠ w')
    (h : in_rows b_cols (begin_of a_rows n w) (count_of a_rows n w) j)
    (h' : in_rows b_cols (begin_of a_rows n w') (count_of a_rows n w') j) : False := by
  obtain ⟨r, c, h1, h2, hc, hj⟩ := h
  obtain ⟨r', c', h1', h2', hc', hj'⟩ := h'
  have hr : r = r' := index_row_unique hc hc' (hj.symm.trans hj')
  subst hr
  exact hne (in_range_unique a_rows n ⟨h1, h2⟩ ⟨h1', h2'⟩)

/-- The ranges of the workers `0 .. n-1` together are the whole buffer. -/
theorem in_rows_cover (a_rows n b_cols : Nat) (hn : 1 ≤ n) (j : Nat) :
    (∃ w, w < n ∧ in_rows b_cols (begin_of a_rows n w) (count_of a_rows n w) j)
      ↔ j < a_rows * b_cols := by
  constructor
  · rintro ⟨w, hw, r, c, h1, h2, hc, hj⟩
    rw [hj]
    exact index_lt_total (in_range_lt_total a_rows n hn hw ⟨h1, h2⟩) hc
  · intro hj
    have hb : 0 < b_cols := by
      rcases Nat.eq_zero_or_pos b_cols with h | h
      · rw [h] at hj; simp at hj
      · exact h
    have hr : j / b_cols < a_rows := by
      rw [Nat.div_lt_iff_lt_mul hb]; exact hj
    obtain ⟨w, hw, hin⟩ := exists_in_range a_rows n hn hr
    refine ⟨w, hw, j / b_cols, j % b_cols, hin.1, hin.2, Nat.mod_lt _ hb, ?_⟩
    rw [Nat.mul_comm]
    exact (Nat.div_add_mod j b_cols).symm

/-- When no `fork` fails the loop hands every worker its `(begin, current_rows)`. -/
theorem fork_loop_ok (fork_ok : Nat → Bool) (shared_id : Int) (q l : Nat) :
    ∀ (n w : Nat) (k : Kernel), (∀ v, w ≤ v → v < w + n → fork_ok v = true) →
    fork_loop fork_ok shared_id q l n w k
      = (some ((List.range' w n).map (fun v => (worker_begin q l v, worker_current_rows q l v))),
         (List.range' w n).foldl (fun k v => k.emit (Event.fork v)) k) := by
  intro n
  induction n with
  | zero => intro w k _; rfl
  | succ n ih =>
    intro w k h
    have hw : fork_ok w = true := h w (Nat.le_refl _) (by omega)
    have hrest := ih (w + 1) (k.emit (Event.fork w)) (fun v h1 h2 => h v (by omega) (by omega))
    simp only [fork_loop, hw, if_true, hrest, List.range'_succ, List.map_cons, List.foldl_cons]

/-- The call `matrix_multiply_serial` is killed when row `n` is its first row whose index
leaves the buffer. -/
theorem serial_crashes (env : Env α) (S : Arith α) (mat_a mat_b : Nat → Nat → α)
    (a_rows a_cols b_rows b_cols n : Nat) (k : Kernel) (ha : a_rows = n + 1)
    (hdim : a_cols = b_rows) (hmalloc : env.malloc_ok = true) (hb : 0 < b_cols)
    (hint : n * b_cols ≤ 2147483648) (hsz : n * b_cols ≤ a_rows * b_cols)
    (hbad : ¬ (0 ≤ flat_index n b_cols 0 ∧
      flat_index n b_cols 0 < ((a_rows * b_cols : Nat) : Int))) :
    (matrix_multiply_serial env S mat_a mat_b a_rows a_cols b_rows b_cols k).1
      = Outcome.crash := by
  subst ha
  subst hdim
  have hk := serial_rows_crash S mat_a mat_b n a_cols b_cols
    (Proc.start (Mem.fresh ((n + 1) * b_cols) env.malloc_init)) rfl hb hint hsz hbad
  simp [matrix_multiply_serial, hmalloc, hk]

theorem child_body_one (S : Arith α) (mat_a mat_b : Nat → Nat → α)
    (a_cols b_cols r : Nat) (p : Proc α) :
    child_body S mat_a mat_b a_cols b_cols r 1 p
      = child_cols S mat_a mat_b a_cols b_cols r p := rfl

theorem worker_rows_le (a_rows n : Nat) (hn : 1 ≤ n) {w : Nat} (hw : w < n) :
    begin_of a_rows n w + count_of a_rows n w ≤ a_rows := by
  have h1 := begin_of_mono a_rows n (show w + 1 ≤ n from hw)
  rw [begin_of_total a_rows n hn, begin_of_succ] at h1
  exact h1

/-- Whatever the order, running the children fills the cells of the workers scheduled, as
long as the buffer has at most `INT_MAX` cells. -/
theorem run_children_fills (S : Arith α) (mat_a mat_b : Nat → Nat → α) (a_cols b_cols : Nat)
    (a_rows n : Nat) (hn : 1 ≤ n) (hbound : a_rows * b_cols ≤ 2147483647)
    (sched : List Nat) (m : Mem α) (hm : m.size = a_rows * b_cols) :
    Fills (cell_value S mat_a mat_b a_cols b_cols)
      (fun j => ∃ w, w ∈ sched ∧ w < n ∧
        in_rows b_cols (begin_of a_rows n w) (count_of a_rows n w) j) m
      (run_children S mat_a mat_b a_cols b_cols
        ((List.range' 0 n).map (fun v =>
          (worker_begin (a_rows / n) (a_rows % n) v, worker_current_rows (a_rows / n) (a_rows % n) v)))
        sched m) := by
  unfold run_children
  refine Fills.foldl (a_rows * b_cols)
    (fun w j => w < n ∧ in_rows b_cols (begin_of a_rows n w) (count_of a_rows n w) j) _ sched
    ?_ m hm
  intro w _ m' hm'
  by_cases hw : w < n
  · have hget : ((List.range' 0 n).map (fun v =>
          (worker_begin (a_rows / n) (a_rows % n) v,
            worker_current_rows (a_rows / n) (a_rows % n) v)))[w]?
        = some (begin_of a_rows n w, count_of a_rows n w) := by
      rw [List.getElem?_map, List.getElem?_range' _ _ hw]
      simp [begin_of, count_of, rows_per_worker, leftover]
    simp only [hget]
    have hle : (begin_of a_rows n w + count_of a_rows n w) * b_cols ≤ a_rows * b_cols :=
      Nat.mul_le_mul_right _ (worker_rows_le a_rows n hn hw)
    have hf := child_body_fills S mat_a mat_b a_cols b_cols (begin_of a_rows n w)
      (count_of a_rows n w) (Proc.start m') rfl (by omega)
      (by show _ ≤ m'.size; rw [hm']; exact hle)
    exact hf.fills.congr (fun j => by simp [hw])
  · have hget : ((List.range' 0 n).map (fun v =>
          (worker_begin (a_rows / n) (a_rows % n) v,
            worker_current_rows (a_rows / n) (a_rows % n) v)))[w]? = none := by
      rw [List.getElem?_eq_none]
      simp; omega
    simp only [hget]
    exact (Fills.nothing _ m').congr (fun j => by simp [hw])

/-- What `matrix_multiply_parallel` returns when the system grants every request. -/
theorem parallel_returns (env : Env α) (S : Arith α) (sched : List Nat)
    (mat_a mat_b : Nat → Nat → α) (num_workers a_rows a_cols b_rows b_cols : Nat) (k : Kernel)
    (hdim : a_cols = b_rows) (hw : 1 ≤ num_workers)
    (hget : env.shmget_ok k (4 * a_rows * b_cols) = true) (hat : env.shmat_ok = true)
    (hfork : ∀ w, w < num_workers → env.fork_ok w = true) :
    (matrix_multiply_parallel env S sched mat_a mat_b num_workers a_rows a_cols b_rows
        b_cols k).1
      = Outcome.ret (some (run_children S mat_a mat_b a_cols b_cols
          ((List.range' 0 num_workers).map (fun v =>
            (worker_begin (a_rows / num_workers) (a_rows % num_workers) v,
              worker_current_rows (a_rows / num_workers) (a_rows % num_workers) v)))
          sched (Mem.fresh (a_rows * b_cols) env.shm_init))) := by
  have hn : num_workers ≠ 0 := by omega
  have hfl := fun k' => fork_loop_ok env.fork_ok
    ((k.emit (Event.shmget (4 * a_rows * b_cols))).next_id : Int) (a_rows / num_workers)
    (a_rows % num_workers) num_workers 0 k' (fun v _ h2 => hfork v (by omega))
  simp only [matrix_multiply_parallel, hdim, ne_eq, not_true_eq_false, if_false, hn, shmget, hget,
    if_true, hat, hfl]
  have hnn : ∀ x : Nat, ¬ ((x : Int) < 0) := fun x => by omega
  simp [hnn]

/-- The buffer after a run of `matrix_multiply_parallel` in which the system grants every
request, for at most `INT_MAX` cells. -/
theorem parallel_run (env : Env α) (S : Arith α) (sched : List Nat)
    (mat_a mat_b : Nat → Nat → α) (num_workers a_rows a_cols b_rows b_cols : Nat) (k : Kernel)
    (hdim : a_cols = b_rows) (hw : 1 ≤ num_workers) (hbound : a_rows * b_cols ≤ 2147483647)
    (hget : env.shmget_ok k (4 * a_rows * b_cols) = true) (hat : env.shmat_ok = true)
    (hfork : ∀ w, w < num_workers → env.fork_ok w = true) :
    ∃ m, (matrix_multiply_parallel env S sched mat_a mat_b num_workers a_rows a_cols b_rows
        b_cols k).1 = Outcome.ret (some m) ∧
      Fills (cell_value S mat_a mat_b a_cols b_cols)
        (fun j => ∃ w, w ∈ sched ∧ w < num_workers ∧
          in_rows b_cols (begin_of a_rows num_workers w) (count_of a_rows num_workers w) j)
        (Mem.fresh (a_rows * b_cols) env.shm_init) m :=
  ⟨_, parallel_returns env S sched mat_a mat_b num_workers a_rows a_cols b_rows b_cols k hdim hw
      hget hat hfork,
    run_children_fills S mat_a mat_b a_cols b_cols a_rows num_workers hw hbound sched _ rfl⟩

theorem count_of_plus_one_iff (a_rows n w : Nat) :
    count_of a_rows n w = a_rows / n + 1 ↔ w < a_rows % n := by
  rw [count_of_eq]
  split_ifs with h
  · simp [h]
  · simp [h]

theorem toList_length (m : Mem α) : m.toList.length = m.size := by
  simp [Mem.toList]

/-- A buffer all of whose cells were filled is the list of the cell values. -/
theorem Fills.toList_eq {val : Nat → α} {P : Nat → Prop} {m m' : Mem α}
    (h : Fills val P m m') (hall : ∀ j, j < m.size → P j) :
    m'.toList = (List.range m.size).map val := by
  unfold Mem.toList
  rw [h.size_eq]
  apply List.map_congr_left
  intro j hj
  exact h.inside j (hall j (List.mem_range.1 hj))

/-- The buffer returned by `matrix_multiply_serial` when `malloc` succeeds, for at most
`INT_MAX` cells. -/
theorem serial_run (env : Env α) (S : Arith α) (mat_a mat_b : Nat → Nat → α)
    (a_rows a_cols b_rows b_cols : Nat) (k : Kernel)
    (hdim : a_cols = b_rows) (hbound : a_rows * b_cols ≤ 2147483647)
    (hmalloc : env.malloc_ok = true) :
    ∃ m, (matrix_multiply_serial env S mat_a mat_b a_rows a_cols b_rows b_cols k).1
        = Outcome.ret (some m) ∧
      Fills (cell_value S mat_a mat_b a_cols b_cols) (fun j => j < a_rows * b_cols)
        (Mem.fresh (a_rows * b_cols) env.malloc_init) m := by
  subst hdim
  have hf := child_body_fills S mat_a mat_b a_cols b_cols 0 a_rows
    (Proc.start (Mem.fresh (a_rows * b_cols) env.malloc_init)) rfl
    (by rw [Nat.zero_add]; omega) (by rw [Nat.zero_add]; exact Nat.le_refl _)
  rw [← serial_rows_eq_child_body] at hf
  refine ⟨(serial_rows S mat_a mat_b a_rows a_cols b_cols
    (Proc.start (Mem.fresh (a_rows * b_cols) env.malloc_init))).mem, ?_, ?_⟩
  · simp [matrix_multiply_serial, hmalloc, hf.alive]
  · refine hf.fills.congr (fun j => ?_)
    constructor
    · rintro ⟨r, c, _, h2, hc, hj⟩
      rw [hj]
      exact index_lt_total (by omega) hc
    · intro hj
      have hb : 0 < b_cols := by
        rcases Nat.eq_zero_or_pos b_cols with h | h
        · rw [h] at hj; simp at hj
        · exact h
      refine ⟨j / b_cols, j % b_cols, Nat.zero_le _, ?_, Nat.mod_lt _ hb, ?_⟩
      · rw [Nat.zero_add, Nat.div_lt_iff_lt_mul hb]; exact hj
      · rw [Nat.mul_comm]; exact (Nat.div_add_mod j b_cols).symm

/-- With every worker scheduled, the cells filled by a parallel run are the whole buffer. -/
theorem scheduled_cover (a_rows n b_cols : Nat) (hn : 1 ≤ n) (sched : List Nat)
    (hsched : sched.Perm (List.range n)) (j : Nat) :
    (∃ w, w ∈ sched ∧ w < n ∧ in_rows b_cols (begin_of a_rows n w) (count_of a_rows n w) j)
      ↔ j < a_rows * b_cols := by
  rw [← in_rows_cover a_rows n b_cols hn j]
  constructor
  · rintro ⟨w, _, hw, h⟩
    exact ⟨w, hw, h⟩
  · rintro ⟨w, hw, h⟩
    exact ⟨w, (hsched.mem_iff).2 (List.mem_range.2 hw), hw, h⟩

theorem emit_trace (k : Kernel) (e : Event) : (k.emit e).trace = k.trace ++ [e] := rfl

theorem shmctl_rmid_trace (id : Int) (k : Kernel) :
    (shmctl_rmid id k).trace = k.trace ++ [Event.shmctl_rmid id] := rfl

theorem fork_loop_trace (fork_ok : Nat → Bool) (shared_id : Int) (q l : Nat) :
    ∀ (n w : Nat) (k : Kernel) (res : Option (List (Nat × Nat))) (k' : Kernel),
    fork_loop fork_ok shared_id q l n w k = (res, k') →
    ∃ rest, k'.trace = k.trace ++ rest := by
  intro n
  induction n with
  | zero =>
    intro w k res k' h
    simp only [fork_loop, Prod.mk.injEq] at h
    exact ⟨[], by rw [← h.2]; simp⟩
  | succ n ih =>
    intro w k res k' h
    unfold fork_loop at h
    cases hw : fork_ok w
    · simp only [hw, Bool.false_eq_true, if_false, Prod.mk.injEq] at h
      exact ⟨[Event.fork w, Event.stderr "fork error", Event.shmdt, Event.shmctl_rmid shared_id],
        by rw [← h.2]; simp [shmctl_rmid_trace, emit_trace]⟩
    · simp only [hw, if_true] at h
      split at h
      · rename_i tasks k2 hk2
        obtain ⟨rest, hrest⟩ := ih _ _ _ _ hk2
        simp only [Prod.mk.injEq] at h
        exact ⟨Event.fork w :: rest, by rw [← h.2, hrest, emit_trace]; simp⟩
      · rename_i k2 hk2
        obtain ⟨rest, hrest⟩ := ih _ _ _ _ hk2
        simp only [Prod.mk.injEq] at h
        exact ⟨Event.fork w :: rest, by rw [← h.2, hrest, emit_trace]; simp⟩

theorem wait_loop_trace (n : Nat) (k : Kernel) :
    ∃ rest, (wait_loop n k).trace = k.trace ++ rest := by
  unfold wait_loop
  generalize List.range n = L
  induction L generalizing k with
  | nil => exact ⟨[], by simp⟩
  | cons x L ih =>
    obtain ⟨rest, h⟩ := ih (k.emit Event.wait)
    exact ⟨Event.wait :: rest, by rw [List.foldl_cons, h, emit_trace]; simp⟩

theorem fork_loop_some_segs (fork_ok : Nat → Bool) (shared_id : Int) (q l : Nat) :
    ∀ (n w : Nat) (k : Kernel) (tasks : List (Nat × Nat)) (k' : Kernel),
    fork_loop fork_ok shared_id q l n w k = (some tasks, k') →
    k'.segs = k.segs ∧ k'.next_id = k.next_id := by
  intro n
  induction n with
  | zero =>
    intro w k tasks k' h
    simp only [fork_loop, Prod.mk.injEq] at h
    rw [← h.2]
    exact ⟨rfl, rfl⟩
  | succ n ih =>
    intro w k tasks k' h
    unfold fork_loop at h
    cases hw : fork_ok w
    · simp [hw] at h
    · simp only [hw, if_true] at h
      split at h
      · rename_i ts k2 hk2
        obtain ⟨h1, h2⟩ := ih _ _ _ _ hk2
        simp only [Prod.mk.injEq] at h
        rw [← h.2, h1, h2]
        exact ⟨rfl, rfl⟩
      · simp at h

theorem wait_loop_segs (n : Nat) (k : Kernel) :
    (wait_loop n k).segs = k.segs ∧ (wait_loop n k).next_id = k.next_id := by
  unfold wait_loop
  generalize List.range n = L
  induction L generalizing k with
  | nil => exact ⟨rfl, rfl⟩
  | cons x L ih =>
    rw [List.foldl_cons]
    obtain ⟨h1, h2⟩ := ih (k.emit Event.wait)
    exact ⟨h1, h2⟩

/-- A call of `matrix_multiply_parallel` that returns a buffer leaves exactly one more
segment in the system than it found: the one it created. -/
theorem parallel_some_segs (env : Env α) (S : Arith α) (sched : List Nat)
    (mat_a mat_b : Nat → Nat → α) (num_workers a_rows a_cols b_rows b_cols : Nat)
    (k k' : Kernel) (m : Mem α)
    (h : matrix_multiply_parallel env S sched mat_a mat_b num_workers a_rows a_cols b_rows
      b_cols k = (Outcome.ret (some m), k')) :
    k'.segs = (k.next_id : Int) :: k.segs ∧ k'.next_id = k.next_id + 1 := by
  unfold matrix_multiply_parallel at h
  by_cases hdim : a_cols = b_rows
  · by_cases hn : num_workers = 0
    · simp [hdim, hn] at h
    · have hnn : ∀ x : Nat, ¬ ((x : Int) < 0) := fun x => by omega
      simp only [hdim, ne_eq, not_true_eq_false, if_false, hn] at h
      cases hg : env.shmget_ok k (4 * a_rows * b_cols)
      · simp [shmget, hg] at h
      · simp only [shmget, hg, if_true, hnn, if_false] at h
        cases ha : env.shmat_ok
        · simp [ha] at h
        · simp only [ha, Bool.true_eq_false, if_false] at h
          split at h
          · simp at h
          · rename_i tasks k3 hk3
            obtain ⟨h1, h2⟩ := fork_loop_some_segs _ _ _ _ _ _ _ _ _ hk3
            obtain ⟨h3, h4⟩ := wait_loop_segs num_workers k3
            simp only [Prod.mk.injEq] at h
            rw [← h.2, h3, h4, h1, h2]
            exact ⟨rfl, rfl⟩
  · simp [hdim] at h

theorem serial_segs (env : Env α) (S : Arith α) (mat_a mat_b : Nat → Nat → α)
    (a_rows a_cols b_rows b_cols : Nat) (k k1 : Kernel) (res : Outcome (Option (Mem α)))
    (h : matrix_multiply_serial env S mat_a mat_b a_rows a_cols b_rows b_cols k = (res, k1)) :
    k1.segs = k.segs ∧ k1.next_id = k.next_id := by
  have hk1 := congrArg Prod.snd h
  simp only at hk1
  rw [← hk1]
  unfold matrix_multiply_serial
  split
  · exact ⟨rfl, rfl⟩
  · split
    · exact ⟨rfl, rfl⟩
    · dsimp only
      split
      · exact ⟨rfl, rfl⟩
      · exact ⟨rfl, rfl⟩

theorem save_matrix_segs (fopen_ok : Bool) (filename : String) (matrix : Option (Mem α))
    (rows cols : Nat) (k k4 : Kernel) (res : Outcome Unit)
    (h : save_matrix fopen_ok filename matrix rows cols k = (res, k4)) :
    k4.segs = k.segs ∧ k4.next_id = k.next_id := by
  have hk4 := congrArg Prod.snd h
  simp only at hk4
  rw [← hk4]
  unfold save_matrix
  split
  · exact ⟨rfl, rfl⟩
  · split
    · exact ⟨rfl, rfl⟩
    · split
      · exact ⟨rfl, rfl⟩
      · exact ⟨rfl, rfl⟩

/-- The release sequence of `main` (lines 268-270) never removes a segment that already
exists: whatever the system answers to the second `shmget`, the segments are as before. -/
theorem main_release_keeps_segs (ok : Bool) (k k6 : Kernel) (sid : Int)
    (hk : ∀ id, id ∈ k.segs → 0 ≤ id ∧ id < (k.next_id : Int))
    (h : shmget ok 0 (k.emit Event.shmdt) = (sid, k6)) :
    (shmctl_rmid sid k6).segs = k.segs := by
  cases ok
  · simp only [shmget, Bool.false_eq_true, if_false, Prod.mk.injEq] at h
    rw [← h.1, ← h.2]
    have hnot : (-1 : Int) ∉ k.segs := fun hmem => by
      have := (hk _ hmem).1
      omega
    simp only [shmctl_rmid, Kernel.emit]
    exact List.erase_of_not_mem hnot
  · simp only [shmget, if_true, Prod.mk.injEq] at h
    rw [← h.1, ← h.2]
    simp [shmctl_rmid, Kernel.emit]

/-- Every run of `main` that returns 0 ends with the segment created by
`matrix_multiply_parallel` still in the system. -/
theorem main_success_keeps_segment (env : Env α) (S : Arith α) (sched : List Nat)
    (load1 load2 : Option ((Nat → Nat → α) × Nat × Nat)) (scanf : Option Int) (k k' : Kernel)
    (hk : ∀ id, id ∈ k.segs → 0 ≤ id ∧ id < (k.next_id : Int))
    (h : main env S sched load1 load2 scanf k = (Outcome.ret 0, k')) :
    k'.segs = (k.next_id : Int) :: k.segs := by
  unfold main at h
  split at h
  · simp at h
  · split at h
    · simp at h
    · split at h
      · simp at h
      · split at h
        · simp at h
        · simp at h
        · simp at h
        · rename_i k1 hser
          have hs := serial_segs _ _ _ _ _ _ _ _ _ _ _ hser
          dsimp only at h
          split at h
          · simp at h
          · split at h
            · split at h
              · simp at h
              · simp at h
              · rename_i parallel_output k3 hpar
                split at h
                · simp at h
                · simp at h
                · rename_i k4 hsave
                  split at h
                  · rename_i m
                    obtain ⟨hp1, hp2⟩ := parallel_some_segs _ _ _ _ _ _ _ _ _ _ _ _ _ hpar
                    have hsv := save_matrix_segs _ _ _ _ _ _ _ _ hsave
                    have hk4 : ∀ id, id ∈ k4.segs → 0 ≤ id ∧ id < (k4.next_id : Int) := by
                      intro id hid
                      rw [hsv.1, hp1] at hid
                      rw [hsv.2, hp2]
                      simp only [Kernel.emit, List.mem_cons] at hid ⊢
                      rcases hid with rfl | hid
                      · omega
                      · rw [hs.1] at hid
                        have := hk id hid
                        rw [hs.2]
                        omega
                    have hrel := main_release_keeps_segs
                      (env.shmget_ok (k4.emit Event.shmdt) 0) k4
                      (shmget (env.shmget_ok (k4.emit Event.shmdt) 0) 0 (k4.emit Event.shmdt)).2
                      (shmget (env.shmget_ok (k4.emit Event.shmdt) 0) 0 (k4.emit Event.shmdt)).1
                      hk4 rfl
                    simp only [Prod.mk.injEq, true_and] at h
                    rw [← h]
                    show (shmctl_rmid _ _).segs = _
                    rw [hrel, hsv.1, hp1]
                    show (k1.next_id : Int) :: k1.segs = _
                    rw [hs.1, hs.2]
                  · simp at h
            · simp at h

end Lemmas

/-! ## The claims -/

section Claims
variable {α : Type}

/-- C2 (amended): for `a_cols = b_rows`, a result of at most `INT_MAX` cells
(`a_rows * b_cols ≤ 2147483647`) and every worker count `w ≥ 1` (so in particular for `w` in
`{1, 2, a_rows, a_rows + 5}`), whenever the system grants both calls their memory (`malloc`,
and `shmget`, `shmat` and every `fork`), whatever the arithmetic of the element type and
whatever the fresh buffers hold, the buffer returned by `matrix_multiply_parallel` and the
buffer returned by `matrix_multiply_serial` are the same list of `a_rows * b_cols` cells. -/
theorem parallel_equals_serial (env : Env α) (S : Arith α) (sched : List Nat)
    (mat_a mat_b : Nat → Nat → α) (w a_rows a_cols b_rows b_cols : Nat) (k k' : Kernel)
    (hdim : a_cols = b_rows) (hw : 1 ≤ w) (hbound : a_rows * b_cols ≤ 2147483647)
    (hget : env.shmget_ok k (4 * a_rows * b_cols) = true) (hat : env.shmat_ok = true)
    (hfork : ∀ v, v < w → env.fork_ok v = true) (hmalloc : env.malloc_ok = true)
    (hsched : sched.Perm (List.range w)) :
    ∃ par ser,
      (matrix_multiply_parallel env S sched mat_a mat_b w a_rows a_cols b_rows b_cols k).1
        = Outcome.ret (some par) ∧
      (matrix_multiply_serial env S mat_a mat_b a_rows a_cols b_rows b_cols k').1
        = Outcome.ret (some ser) ∧
      par.toList = ser.toList ∧
      par.toList.length = a_rows * b_cols ∧
      ser.toList.length = a_rows * b_cols := by
  obtain ⟨p, hp, hpf⟩ := parallel_run env S sched mat_a mat_b w a_rows a_cols
    b_rows b_cols k hdim hw hbound hget hat hfork
  obtain ⟨s, hs, hsf⟩ := serial_run env S mat_a mat_b a_rows a_cols b_rows b_cols k' hdim hbound
    hmalloc
  have hpf' := hpf.congr (scheduled_cover a_rows w b_cols hw sched hsched)
  have hpl := hpf'.toList_eq (fun j hj => hj)
  have hsl := hsf.toList_eq (fun j hj => hj)
  refine ⟨p, s, hp, hs, hpl.trans hsl.symm, ?_, ?_⟩
  · rw [toList_length]; exact hpf'.size_eq
  · rw [toList_length]; exact hsf.size_eq

/-- C3: for `worker_count ≥ 1` the row ranges `[begin_w, begin_w + count_w)` of the workers
`w < worker_count` are pairwise disjoint, every row `r < total_rows` lies in the range of
exactly one worker, and no range contains a row outside `[0, total_rows)`. -/
theorem partition_disjoint_and_exhaustive (total_rows worker_count : Nat)
    (hw : 1 ≤ worker_count) :
    (∀ w w', w < worker_count → w' < worker_count → w ≠ w' →
      ∀ r, ¬ (in_range total_rows worker_count w r ∧ in_range total_rows worker_count w' r)) ∧
    (∀ r, r < total_rows →
      ∃! w, w < worker_count ∧ in_range total_rows worker_count w r) ∧
    (∀ w r, w < worker_count → in_range total_rows worker_count w r → r < total_rows) := by
  refine ⟨?_, ?_, ?_⟩
  · intro w w' _ _ hne r h
    exact hne (in_range_unique total_rows worker_count h.1 h.2)
  · intro r hr
    obtain ⟨w, hlt, hin⟩ := exists_in_range total_rows worker_count hw hr
    exact ⟨w, ⟨hlt, hin⟩, fun w' h' => in_range_unique total_rows worker_count h'.2 hin⟩
  · intro w r hlt hin
    exact in_range_lt_total total_rows worker_count hw hlt hin

/-- C4: for `worker_count ≥ 1` every worker's row count is `total_rows / worker_count` or
that plus one; the workers with the extra row are exactly those with
`w < total_rows % worker_count`, there are `total_rows % worker_count` of them, and the
counts of all workers sum to `total_rows`. -/
theorem counts_floor_or_plus_one (total_rows worker_count : Nat) (hw : 1 ≤ worker_count) :
    (∀ w, w < worker_count →
      count_of total_rows worker_count w = total_rows / worker_count ∨
      count_of total_rows worker_count w = total_rows / worker_count + 1) ∧
    (∀ w, w < worker_count →
      (count_of total_rows worker_count w = total_rows / worker_count + 1
        ↔ w < total_rows % worker_count)) ∧
    ((List.range worker_count).filter
      (fun w => decide (count_of total_rows worker_count w = total_rows / worker_count + 1))).length
      = total_rows % worker_count ∧
    ((List.range worker_count).map (count_of total_rows worker_count)).sum = total_rows := by
  refine ⟨?_, ?_, ?_, ?_⟩
  · intro w _
    rw [count_of_eq]
    split_ifs
    · exact Or.inr rfl
    · exact Or.inl rfl
  · intro w _
    exact count_of_plus_one_iff total_rows worker_count w
  · have hfun : (fun w => decide (count_of total_rows worker_count w = total_rows / worker_count + 1))
        = (fun w => decide (w < total_rows % worker_count)) := by
      funext w
      simp only [count_of_plus_one_iff]
    rw [hfun, filter_lt_range]
    exact Nat.min_eq_right (Nat.le_of_lt (Nat.mod_lt _ (by omega)))
  · rw [← begin_of_sum, begin_of_total total_rows worker_count hw]

/-- C5: for `worker_count ≥ 1` and `w < worker_count`, the `begin` computed by the code
equals `w * base + min w remainder` and equals the sum of the counts of the workers before
`w`; `begin` of worker 0 is 0 and `begin` of worker `w + 1` is `begin + count` of worker `w`. -/
theorem begin_is_sum_of_earlier_counts (total_rows worker_count w : Nat) (hw : 1 ≤ worker_count)
    (hlt : w < worker_count) :
    worker_begin (total_rows / worker_count) (total_rows % worker_count) w
      = w * (total_rows / worker_count) + min w (total_rows % worker_count) ∧
    worker_begin (total_rows / worker_count) (total_rows % worker_count) w
      = ((List.range w).map
          (worker_current_rows (total_rows / worker_count) (total_rows % worker_count))).sum ∧
    worker_begin (total_rows / worker_count) (total_rows % worker_count) 0 = 0 ∧
    worker_begin (total_rows / worker_count) (total_rows % worker_count) (w + 1)
      = worker_begin (total_rows / worker_count) (total_rows % worker_count) w
        + worker_current_rows (total_rows / worker_count) (total_rows % worker_count) w := by
  exact ⟨begin_of_min total_rows worker_count w, begin_of_sum total_rows worker_count w,
    begin_of_zero total_rows worker_count, begin_of_succ total_rows worker_count w⟩

/-- C6: whenever `a_cols ≠ b_rows`, `matrix_multiply_serial` and `matrix_multiply_parallel`
both return `NULL`, for every worker count and every other argument, having done nothing but
print their message: no `malloc`, no `shmget`/`shmat`, no `fork`, and the set of shared
segments is untouched.  Conversely, when `a_cols = b_rows` the serial function goes on to
`malloc` and the parallel one (for `num_workers ≥ 1`) to `shmget`. -/
theorem dimension_mismatch_fails_before_allocation (env : Env α) (S : Arith α)
    (sched : List Nat) (mat_a mat_b : Nat → Nat → α)
    (num_workers a_rows a_cols b_rows b_cols : Nat) (k : Kernel) :
    (a_cols ≠ b_rows →
      (matrix_multiply_parallel env S sched mat_a mat_b num_workers a_rows a_cols b_rows
        b_cols k).1 = Outcome.ret none ∧
      (matrix_multiply_serial env S mat_a mat_b a_rows a_cols b_rows b_cols k).1
        = Outcome.ret none ∧
      (matrix_multiply_parallel env S sched mat_a mat_b num_workers a_rows a_cols b_rows
        b_cols k).2
        = k.emit (Event.stderr "Matrix size incompatible for multiplication\n") ∧
      (matrix_multiply_serial env S mat_a mat_b a_rows a_cols b_rows b_cols k).2
        = k.emit (Event.stderr "Matrix size mismatch\n") ∧
      (k.emit (Event.stderr "Matrix size incompatible for multiplication\n")).segs = k.segs ∧
      (k.emit (Event.stderr "Matrix size mismatch\n")).segs = k.segs) ∧
    (a_cols = b_rows →
      (∃ rest, (matrix_multiply_serial env S mat_a mat_b a_rows a_cols b_rows b_cols k).2.trace
        = k.trace ++ Event.malloc (4 * a_rows * b_cols) :: rest) ∧
      (1 ≤ num_workers →
        ∃ rest, (matrix_multiply_parallel env S sched mat_a mat_b num_workers a_rows a_cols
          b_rows b_cols k).2.trace
          = k.trace ++ Event.shmget (4 * a_rows * b_cols) :: rest)) := by
  constructor
  · intro hne
    simp [matrix_multiply_parallel, matrix_multiply_serial, hne, Kernel.emit]
  · intro heq
    constructor
    · unfold matrix_multiply_serial
      cases hm : env.malloc_ok
      · exact ⟨[Event.stderr "malloc failed"], by simp [heq, emit_trace]⟩
      · refine ⟨[], ?_⟩
        simp only [heq, ne_eq, not_true_eq_false, if_false, Bool.true_eq_false]
        split <;> simp [emit_trace]
    · intro hw
      have hn : num_workers ≠ 0 := by omega
      have hnn : ∀ x : Nat, ¬ ((x : Int) < 0) := fun x => by omega
      unfold matrix_multiply_parallel
      simp only [heq, ne_eq, not_true_eq_false, if_false, hn]
      cases hg : env.shmget_ok k (4 * a_rows * b_cols)
      · exact ⟨[Event.stderr "shmget error"], by simp [shmget, emit_trace]⟩
      · simp only [shmget, if_true, hnn, if_false]
        cases ha : env.shmat_ok
        · exact ⟨_, by simp [shmctl_rmid_trace, emit_trace]; rfl⟩
        · simp only [Bool.true_eq_false, if_false]
          split
          · rename_i k3 hk3
            obtain ⟨r1, h1⟩ := fork_loop_trace _ _ _ _ _ _ _ _ _ hk3
            exact ⟨_, by rw [h1]; simp [emit_trace]; rfl⟩
          · rename_i tasks k3 hk3
            obtain ⟨r1, h1⟩ := fork_loop_trace _ _ _ _ _ _ _ _ _ hk3
            obtain ⟨r2, h2⟩ := wait_loop_trace num_workers k3
            exact ⟨_, by rw [h2, h1]; simp [emit_trace]; rfl⟩

/-- C7 (amended): on a shared buffer of `a_rows * b_cols ≤ 2147483647` cells, worker `w` of
`num_workers` runs its loop to the end, stores only to indices `r * b_cols + c` with
`begin_w ≤ r < begin_w + count_w` and `c < b_cols`, leaves every other cell (and the size of
the buffer) as it was, and no index stored to by worker `w` is stored to by a different
worker `w'`.  The input matrices are read-only arguments. -/
theorem worker_writes_only_own_rows (S : Arith α) (mat_a mat_b : Nat → Nat → α)
    (a_rows a_cols b_cols num_workers w : Nat) (hw : 1 ≤ num_workers) (hlt : w < num_workers)
    (hbound : a_rows * b_cols ≤ 2147483647) (m : Mem α) (hsize : m.size = a_rows * b_cols) :
    (child_body S mat_a mat_b a_cols b_cols (begin_of a_rows num_workers w)
      (count_of a_rows num_workers w) (Proc.start m)).killed = false ∧
    (child_body S mat_a mat_b a_cols b_cols (begin_of a_rows num_workers w)
      (count_of a_rows num_workers w) (Proc.start m)).mem.size = m.size ∧
    (∀ j, j ∈ (child_body S mat_a mat_b a_cols b_cols (begin_of a_rows num_workers w)
        (count_of a_rows num_workers w) (Proc.start m)).mem.written →
      j ∈ m.written ∨
      ∃ r c, begin_of a_rows num_workers w ≤ r ∧
        r < begin_of a_rows num_workers w + count_of a_rows num_workers w ∧
        c < b_cols ∧ j = r * b_cols + c) ∧
    (∀ j, (¬ ∃ r c, begin_of a_rows num_workers w ≤ r ∧
        r < begin_of a_rows num_workers w + count_of a_rows num_workers w ∧
        c < b_cols ∧ j = r * b_cols + c) →
      (child_body S mat_a mat_b a_cols b_cols (begin_of a_rows num_workers w)
        (count_of a_rows num_workers w) (Proc.start m)).mem.cells j = m.cells j) ∧
    (∀ w' (m' : Mem α), w' < num_workers → w' ≠ w → m'.size = a_rows * b_cols →
      m.written = [] → m'.written = [] →
      ∀ j, j ∈ (child_body S mat_a mat_b a_cols b_cols (begin_of a_rows num_workers w)
          (count_of a_rows num_workers w) (Proc.start m)).mem.written →
        j ∉ (child_body S mat_a mat_b a_cols b_cols (begin_of a_rows num_workers w')
          (count_of a_rows num_workers w') (Proc.start m')).mem.written) := by
  have hfit : ∀ v, v < num_workers → ∀ m0 : Mem α, m0.size = a_rows * b_cols →
      FillsP (cell_value S mat_a mat_b a_cols b_cols)
        (in_rows b_cols (begin_of a_rows num_workers v) (count_of a_rows num_workers v))
        (Proc.start m0)
        (child_body S mat_a mat_b a_cols b_cols (begin_of a_rows num_workers v)
          (count_of a_rows num_workers v) (Proc.start m0)) := by
    intro v hv m0 hm0
    have hle : (begin_of a_rows num_workers v + count_of a_rows num_workers v) * b_cols
        ≤ a_rows * b_cols := Nat.mul_le_mul_right _ (worker_rows_le a_rows num_workers hw hv)
    exact child_body_fills S mat_a mat_b a_cols b_cols _ _ (Proc.start m0) rfl (by omega)
      (by show _ ≤ m0.size; rw [hm0]; exact hle)
  have hf := hfit w hlt m hsize
  refine ⟨hf.alive, hf.fills.size_eq, ?_, ?_, ?_⟩
  · intro j hj
    rcases (hf.fills.log j).1 hj with h | h
    · exact Or.inr h
    · exact Or.inl h
  · intro j hj
    exact hf.fills.outside j hj
  · intro w' m' hlt' hne hsize' hm hm' j hj hj'
    have hf' := hfit w' hlt' m' hsize'
    have h1 := (hf.fills.log j).1 hj
    have h2 := (hf'.fills.log j).1 hj'
    have e1 : (Proc.start m).mem.written = [] := hm
    have e2 : (Proc.start m').mem.written = [] := hm'
    rw [e1] at h1
    rw [e2] at h2
    simp only [List.not_mem_nil, or_false] at h1 h2
    exact in_rows_disjoint a_rows num_workers b_cols (Ne.symm hne) h1 h2

/-- C8: for `worker_count > total_rows` (and every `fork` granted) the loop still hands out
one `(begin, current_rows)` per worker, `worker_count` in all; each worker `w < total_rows`
gets exactly the row `w`, and each worker `w ≥ total_rows` gets a count of 0 and its loop
leaves the buffer and the write log as they were. -/
theorem more_workers_than_rows (S : Arith α) (mat_a mat_b : Nat → Nat → α)
    (a_cols b_cols : Nat) (fork_ok : Nat → Bool) (shared_id : Int) (k : Kernel)
    (total_rows worker_count : Nat) (h : total_rows < worker_count)
    (hfork : ∀ w, w < worker_count → fork_ok w = true) :
    ∃ tasks,
      (fork_loop fork_ok shared_id (total_rows / worker_count) (total_rows % worker_count)
        worker_count 0 k).1 = some tasks ∧
      tasks.length = worker_count ∧
      (∀ w, w < total_rows → tasks[w]? = some (w, 1)) ∧
      (∀ w, total_rows ≤ w → w < worker_count →
        tasks[w]? = some (total_rows, 0) ∧
        ∀ p : Proc α, child_body S mat_a mat_b a_cols b_cols total_rows 0 p = p) := by
  have hq : total_rows / worker_count = 0 := Nat.div_eq_of_lt h
  have hl : total_rows % worker_count = total_rows := Nat.mod_eq_of_lt h
  have hfl := fork_loop_ok fork_ok shared_id (total_rows / worker_count)
    (total_rows % worker_count) worker_count 0 k (fun v _ h2 => hfork v (by omega))
  refine ⟨_, by rw [hfl], by simp, ?_, ?_⟩
  · intro w hw
    have hw' : w < worker_count := by omega
    rw [List.getElem?_map, List.getElem?_range' _ _ hw']
    simp [worker_begin, worker_current_rows, hq, hl, hw]
  · intro w hw hw'
    constructor
    · rw [List.getElem?_map, List.getElem?_range' _ _ hw']
      have : ¬ w < total_rows := by omega
      simp [worker_begin, worker_current_rows, hq, hl, this]
    · intro p
      simp [child_body]

/-- C10: for `A = [[1,2],[3,4]]` and `B = [[5,6],[7,8]]`, in any element type whose
addition and multiplication are exact on integers of magnitude at most `2^24` (as `float`
is), `matrix_multiply_parallel` with 2 workers, and equally with 3 workers, returns the flat
buffer `[19, 22, 43, 50]`. -/
theorem example_two_by_two (env : Env α) (S : Arith α) (ι : Int → α) (sched : List Nat)
    (num_workers : Nat) (k : Kernel)
    (hz : S.zero = ι 0)
    (hadd : ∀ x y : Int, x.natAbs ≤ 16777216 → y.natAbs ≤ 16777216 →
      (x + y).natAbs ≤ 16777216 → S.add (ι x) (ι y) = ι (x + y))
    (hmul : ∀ x y : Int, x.natAbs ≤ 16777216 → y.natAbs ≤ 16777216 →
      (x * y).natAbs ≤ 16777216 → S.mul (ι x) (ι y) = ι (x * y))
    (hn : num_workers = 2 ∨ num_workers = 3)
    (hget : env.shmget_ok k (4 * 2 * 2) = true) (hat : env.shmat_ok = true)
    (hfork : ∀ w, w < num_workers → env.fork_ok w = true)
    (hsched : sched.Perm (List.range num_workers)) :
    ∃ result,
      (matrix_multiply_parallel env S sched (fun r i => ι (exA r i)) (fun i c => ι (exB i c))
        num_workers 2 2 2 2 k).1 = Outcome.ret (some result) ∧
      result.toList = [ι 19, ι 22, ι 43, ι 50] := by
  have hw : 1 ≤ num_workers := by omega
  obtain ⟨m, hm, hfill⟩ := parallel_run env S sched (fun r i => ι (exA r i))
    (fun i c => ι (exB i c)) num_workers 2 2 2 2 k rfl hw (by decide) hget hat hfork
  have hfill' := hfill.congr (scheduled_cover 2 num_workers 2 hw sched hsched)
  refine ⟨m, hm, ?_⟩
  rw [hfill'.toList_eq (fun j hj => hj)]
  have e1 : S.add (S.add (ι 0) (S.mul (ι 1) (ι 5))) (S.mul (ι 2) (ι 7)) = ι 19 := by
    rw [hmul 1 5 (by decide) (by decide) (by decide), hmul 2 7 (by decide) (by decide) (by decide),
      hadd 0 (1 * 5) (by decide) (by decide) (by decide),
      hadd (0 + 1 * 5) (2 * 7) (by decide) (by decide) (by decide)]
    rfl
  have e2 : S.add (S.add (ι 0) (S.mul (ι 1) (ι 6))) (S.mul (ι 2) (ι 8)) = ι 22 := by
    rw [hmul 1 6 (by decide) (by decide) (by decide), hmul 2 8 (by decide) (by decide) (by decide),
      hadd 0 (1 * 6) (by decide) (by decide) (by decide),
      hadd (0 + 1 * 6) (2 * 8) (by decide) (by decide) (by decide)]
    rfl
  have e3 : S.add (S.add (ι 0) (S.mul (ι 3) (ι 5))) (S.mul (ι 4) (ι 7)) = ι 43 := by
    rw [hmul 3 5 (by decide) (by decide) (by decide), hmul 4 7 (by decide) (by decide) (by decide),
      hadd 0 (3 * 5) (by decide) (by decide) (by decide),
      hadd (0 + 3 * 5) (4 * 7) (by decide) (by decide) (by decide)]
    rfl
  have e4 : S.add (S.add (ι 0) (S.mul (ι 3) (ι 6))) (S.mul (ι 4) (ι 8)) = ι 50 := by
    rw [hmul 3 6 (by decide) (by decide) (by decide), hmul 4 8 (by decide) (by decide) (by decide),
      hadd 0 (3 * 6) (by decide) (by decide) (by decide),
      hadd (0 + 3 * 6) (4 * 8) (by decide) (by decide) (by decide)]
    rfl
  have hrange : List.range (Mem.fresh (2 * 2) env.shm_init).size = [0, 1, 2, 3] := rfl
  rw [hrange]
  simp only [List.map_cons, List.map_nil, cell_value, dot, hz]
  have r2 : List.range 2 = [0, 1] := rfl
  simp only [r2, List.foldl_cons, List.foldl_nil]
  norm_num [exA, exB]
  exact ⟨e1, e2, e3, e4⟩

/-- C9 (the code does not do this): on the run `A.txt = [[1,2],[3,4]]`, `B.txt = [[5,6],[7,8]]`
with 2 typed in, from a system with no shared segment, `main` returns 0 and the segment 0
created and attached by `matrix_multiply_parallel` still exists: the only `IPC_RMID` issued
is on the result of a second `shmget(IPC_PRIVATE, 0, ...)`, which is `-1` when the system
refuses a segment of size zero and the fresh segment 1 when it grants one; segment 0 is never
removed. -/
theorem main_never_removes_its_segment :
    main (okEnv 0) intArith [0, 1] (some (exA, 2, 2)) (some (exB, 2, 2)) (some 2) Kernel.boot
      = (Outcome.ret 0,
          { segs := [0]
            next_id := 1
            trace := [Event.malloc 16, Event.free, Event.shmget 16, Event.shmat 0,
              Event.fork 0, Event.fork 1, Event.wait, Event.wait,
              Event.save_matrix "C.txt", Event.shmdt, Event.shmget 0, Event.shmctl_rmid (-1),
              Event.release_matrix 2, Event.release_matrix 2] }) ∧
    main (laxEnv 0) intArith [0, 1] (some (exA, 2, 2)) (some (exB, 2, 2)) (some 2) Kernel.boot
      = (Outcome.ret 0,
          { segs := [0]
            next_id := 2
            trace := [Event.malloc 16, Event.free, Event.shmget 16, Event.shmat 0,
              Event.fork 0, Event.fork 1, Event.wait, Event.wait,
              Event.save_matrix "C.txt", Event.shmdt, Event.shmget 0, Event.shmctl_rmid 1,
              Event.release_matrix 2, Event.release_matrix 2] }) := by
  constructor <;> rfl

/-! ## Where the claims as first stated fail -/

/-- C2 as first stated (all `A`, `B`) fails in two ways.  For a 2x2 matrix times a 2x0 matrix
the result has no cell: a system that refuses a shared segment of size zero makes
`matrix_multiply_parallel` return `NULL` while `matrix_multiply_serial` returns its (empty)
buffer.  For a 65537x1 matrix times a 1x32768 matrix the `int` index overflows at row 65536:
the serial loop leaves its buffer there and the process is killed, while the parallel call
returns a buffer. -/
theorem parallel_serial_differ_counterexample :
    ((matrix_multiply_parallel (okEnv 7) intArith [0] exA exB 1 2 2 2 0 Kernel.boot).1
        = Outcome.ret none ∧
      ∃ ser, (matrix_multiply_serial (okEnv 7) intArith exA exB 2 2 2 0 Kernel.boot).1
        = Outcome.ret (some ser) ∧ ser.toList = []) ∧
    ((matrix_multiply_serial (okEnv 7) intArith (fun _ _ => 1) (fun _ _ => 1)
        65537 1 1 32768 Kernel.boot).1 = Outcome.crash ∧
      ∃ par, (matrix_multiply_parallel (okEnv 7) intArith [0] (fun _ _ => 1) (fun _ _ => 1)
        1 65537 1 1 32768 Kernel.boot).1 = Outcome.ret (some par)) := by
  refine ⟨⟨rfl, _, rfl, rfl⟩, ?_, _,
    parallel_returns (okEnv 7) intArith [0] (fun _ _ => 1) (fun _ _ => 1) 1 65537 1 1 32768
      Kernel.boot rfl (by decide) (by decide) rfl (fun _ _ => rfl)⟩
  exact serial_crashes (okEnv 7) intArith (fun _ _ => 1) (fun _ _ => 1) 65537 1 1 32768 65536
    Kernel.boot rfl rfl rfl (by decide) (by decide) (by decide) (by decide)

/-- C7 as first stated (every size) fails for a 65537x1 matrix times a 1x65536 matrix with
65537 workers: the last worker, 65536, has the single row 65536, whose first flat index
`2^32` is 0 as an `int`; it stores to index 0, which is not a cell of its row and is a cell
that worker 0 stores to as well. -/
theorem worker_write_overflow_counterexample :
    65536 < 65537 ∧
    begin_of 65537 65537 65536 = 65536 ∧ count_of 65537 65537 65536 = 1 ∧
    0 ∈ (child_body intArith (fun _ _ => 1) (fun _ _ => 1) 1 65536
      (begin_of 65537 65537 65536) (count_of 65537 65537 65536)
      (Proc.start (Mem.fresh (65537 * 65536) (fun _ => 0)))).mem.written ∧
    (¬ ∃ r c, begin_of 65537 65537 65536 ≤ r ∧
      r < begin_of 65537 65537 65536 + count_of 65537 65537 65536 ∧
      c < 65536 ∧ 0 = r * 65536 + c) ∧
    0 ∈ (child_body intArith (fun _ _ => 1) (fun _ _ => 1) 1 65536
      (begin_of 65537 65537 0) (count_of 65537 65537 0)
      (Proc.start (Mem.fresh (65537 * 65536) (fun _ => 0)))).mem.written := by
  have hb : begin_of 65537 65537 65536 = 65536 := by decide
  have hc : count_of 65537 65537 65536 = 1 := by decide
  have hb0 : begin_of 65537 65537 0 = 0 := by decide
  have hc0 : count_of 65537 65537 0 = 1 := by decide
  refine ⟨by decide, hb, hc, ?_, ?_, ?_⟩
  · rw [hb, hc, child_body_one]
    exact child_cols_first_write intArith (fun _ _ => 1) (fun _ _ => 1) 1 65536 65536 0
      (Proc.start (Mem.fresh (65537 * 65536) (fun _ => 0))) rfl (by decide) (by decide)
      (by decide)
  · rw [hb, hc]
    rintro ⟨r, c, h1, _, _, h4⟩
    have : 65536 * 65536 ≤ r * 65536 := Nat.mul_le_mul_right _ h1
    omega
  · rw [hb0, hc0, child_body_one]
    exact child_cols_first_write intArith (fun _ _ => 1) (fun _ _ => 1) 1 65536 0 0
      (Proc.start (Mem.fresh (65537 * 65536) (fun _ => 0))) rfl (by decide) (by decide)
      (by decide)

/-! ## The claims at concrete inputs -/

/-- C2 at the same matrices with `a_rows + 5 = 7` workers run in worker order. -/
theorem parallel_equals_serial_witness :
    1 ≤ 7 ∧ 2 * 2 ≤ 2147483647 ∧
    ∃ par ser,
      (matrix_multiply_parallel (okEnv 7) intArith (List.range 7) exA exB 7 2 2 2 2
        Kernel.boot).1 = Outcome.ret (some par) ∧
      (matrix_multiply_serial (okEnv 7) intArith exA exB 2 2 2 2 Kernel.boot).1
        = Outcome.ret (some ser) ∧
      par.toList = ser.toList ∧
      par.toList.length = 2 * 2 ∧
      ser.toList.length = 2 * 2 :=
  ⟨by decide, by decide,
    parallel_equals_serial (okEnv 7) intArith (List.range 7) exA exB 7 2 2 2 2 Kernel.boot
      Kernel.boot rfl (by decide) (by decide) rfl rfl (fun _ _ => rfl) rfl (List.Perm.refl _)⟩

/-- C3 at 5 rows and 3 workers. -/
theorem partition_disjoint_and_exhaustive_witness :
    1 ≤ 3 ∧ (∀ r, r < 5 → ∃! w, w < 3 ∧ in_range 5 3 w r) :=
  ⟨by decide, (partition_disjoint_and_exhaustive 5 3 (by decide)).2.1⟩

/-- C4 at 5 rows and 3 workers. -/
theorem counts_floor_or_plus_one_witness :
    1 ≤ 3 ∧ ((List.range 3).map (count_of 5 3)).sum = 5 :=
  ⟨by decide, (counts_floor_or_plus_one 5 3 (by decide)).2.2.2⟩

/-- C5 at 5 rows, 3 workers, worker 2. -/
theorem begin_is_sum_of_earlier_counts_witness :
    1 ≤ 3 ∧ 2 < 3 ∧ worker_begin (5 / 3) (5 % 3) 2 = 2 * (5 / 3) + min 2 (5 % 3) :=
  ⟨by decide, by decide, (begin_is_sum_of_earlier_counts 5 3 2 (by decide) (by decide)).1⟩

/-- C6 at a 2x2 by 3x2 request (mismatch) and at a 2x2 by 2x2 request (match). -/
theorem dimension_mismatch_fails_before_allocation_witness :
    (2 ≠ 3 ∧
      (matrix_multiply_parallel (okEnv 0) intArith [0, 1] exA exB 2 2 2 3 2 Kernel.boot).1
        = Outcome.ret none) ∧
    (2 = 2 ∧ 1 ≤ 2 ∧
      ∃ rest, (matrix_multiply_parallel (okEnv 0) intArith [0, 1] exA exB 2 2 2 2 2
        Kernel.boot).2.trace = Kernel.boot.trace ++ Event.shmget (4 * 2 * 2) :: rest) :=
  ⟨⟨by decide,
      ((dimension_mismatch_fails_before_allocation (okEnv 0) intArith [0, 1] exA exB 2 2 2 3 2
        Kernel.boot).1 (by decide)).1⟩,
    ⟨rfl, by decide,
      ((dimension_mismatch_fails_before_allocation (okEnv 0) intArith [0, 1] exA exB 2 2 2 2 2
        Kernel.boot).2 rfl).2 (by decide)⟩⟩

/-- C7 at a 5x2 times 2x2 request with 3 workers, for worker 1 (rows 2 and 3) on a buffer of
10 cells holding 100, 101, ..., 109. -/
theorem worker_writes_only_own_rows_witness :
    1 ≤ 3 ∧ 1 < 3 ∧ 5 * 2 ≤ 2147483647 ∧
    (child_body intArith exA exB 2 2 (begin_of 5 3 1) (count_of 5 3 1)
      (Proc.start (Mem.fresh 10 (fun j => (j : Int) + 100)))).killed = false ∧
    (child_body intArith exA exB 2 2 (begin_of 5 3 1) (count_of 5 3 1)
      (Proc.start (Mem.fresh 10 (fun j => (j : Int) + 100)))).mem.size
        = (Mem.fresh 10 (fun j => (j : Int) + 100)).size ∧
    (∀ j, j ∈ (child_body intArith exA exB 2 2 (begin_of 5 3 1) (count_of 5 3 1)
        (Proc.start (Mem.fresh 10 (fun j => (j : Int) + 100)))).mem.written →
      j ∈ (Mem.fresh 10 (fun j => (j : Int) + 100)).written ∨
      ∃ r c, begin_of 5 3 1 ≤ r ∧ r < begin_of 5 3 1 + count_of 5 3 1 ∧
        c < 2 ∧ j = r * 2 + c) ∧
    (∀ j, (¬ ∃ r c, begin_of 5 3 1 ≤ r ∧ r < begin_of 5 3 1 + count_of 5 3 1 ∧
        c < 2 ∧ j = r * 2 + c) →
      (child_body intArith exA exB 2 2 (begin_of 5 3 1) (count_of 5 3 1)
        (Proc.start (Mem.fresh 10 (fun j => (j : Int) + 100)))).mem.cells j
        = (Mem.fresh 10 (fun j => (j : Int) + 100)).cells j) ∧
    (∀ w' (m' : Mem Int), w' < 3 → w' ≠ 1 → m'.size = 5 * 2 →
      (Mem.fresh 10 (fun j => (j : Int) + 100)).written = [] → m'.written = [] →
      ∀ j, j ∈ (child_body intArith exA exB 2 2 (begin_of 5 3 1) (count_of 5 3 1)
          (Proc.start (Mem.fresh 10 (fun j => (j : Int) + 100)))).mem.written →
        j ∉ (child_body intArith exA exB 2 2 (begin_of 5 3 w') (count_of 5 3 w')
          (Proc.start m')).mem.written) :=
  ⟨by decide, by decide, by decide,
    worker_writes_only_own_rows intArith exA exB 5 2 2 3 1 (by decide) (by decide) (by decide)
      (Mem.fresh 10 (fun j => (j : Int) + 100)) rfl⟩

/-- C8 at 2 rows and 3 workers. -/
theorem more_workers_than_rows_witness :
    2 < 3 ∧
    ∃ tasks,
      (fork_loop (fun _ => true) 0 (2 / 3) (2 % 3) 3 0 Kernel.boot).1 = some tasks ∧
      tasks.length = 3 ∧
      (∀ w, w < 2 → tasks[w]? = some (w, 1)) ∧
      (∀ w, 2 ≤ w → w < 3 →
        tasks[w]? = some (2, 0) ∧
        ∀ p : Proc Int, child_body intArith exA exB 2 2 2 0 p = p) :=
  ⟨by decide,
    more_workers_than_rows intArith exA exB 2 2 (fun _ => true) 0 Kernel.boot 2 3 (by decide)
      (fun _ _ => rfl)⟩

/-- C10 in exact integer arithmetic with 3 workers finishing in the order 2, 0, 1. -/
theorem example_two_by_two_witness :
    [2, 0, 1].Perm (List.range 3) ∧
    ∃ result,
      (matrix_multiply_parallel (okEnv 0) intArith [2, 0, 1] exA exB 3 2 2 2 2 Kernel.boot).1
        = Outcome.ret (some result) ∧
      result.toList = [19, 22, 43, 50] :=
  ⟨by decide,
    example_two_by_two (okEnv 0) intArith (fun x => x) [2, 0, 1] 3 Kernel.boot rfl
      (fun _ _ _ _ _ => rfl) (fun _ _ _ _ _ => rfl) (Or.inr rfl) rfl rfl (fun _ _ => rfl)
      (by decide)⟩

end Claims

end MatrixMul
